import Mathlib

/-!
Shallow embedding of the 2dRectPack packing engine: the geometric Box
primitive (src/src/packer Box class) and the Packer algorithm
(src/src/packer/Packer.ts), translated function by function.

Numbers: the engine performs only additions, subtractions, min/max and
comparisons on coordinates and dimensions, so coordinates are embedded as
exact integers (Int); the demo application also feeds parseInt values.
The one division in the code (the fullness ratio) is embedded in ℚ, with
Option ℚ whose none value models the non-finite results of the source's
floating-point division by zero (0/0 = NaN, x/0 = ±Infinity): such a
result is not a rational number and in particular is not in [0, 1].

Loops: the source's while/for loops are embedded as fuel-indexed
structural recursions.  Each call site passes fuel that strictly exceeds
the number of iterations the source loop can perform (justified at each
definition), so the embedded function computes exactly the source loop.

Mutation: the TS code mutates in place; the embedding threads the state
explicitly.  In-place flag mutations (needRemove, mark) on shared objects
are only ever observed through the same collections that are updated
here, so value semantics is faithful.
-/

namespace RectPack

/-- Box class: width/height, derived bounds, id, and the transient mark and
needRemove fields used during algorithm passes. -/
structure Box where
  width : Int
  height : Int
  left : Int
  top : Int
  right : Int
  bottom : Int
  id : Int
  mark : Int
  needRemove : Bool
deriving Repr, DecidableEq

/-- Result of the default constructor new Box(): all fields zero. -/
def Box.mkDefault : Box :=
  { width := 0, height := 0, left := 0, top := 0, right := 0, bottom := 0,
    id := 0, mark := 0, needRemove := false }

instance : Inhabited Box := ⟨Box.mkDefault⟩

/-- Box.createFromSize(width, height, id, mark): position defaults to the
origin, bounds derived. -/
def Box.createFromSize (width height id mark : Int) : Box :=
  { width := width, height := height, left := 0, top := 0,
    right := width, bottom := height, id := id, mark := mark, needRemove := false }

/-- Box.createFromCoord(left, top, right, bottom, id, mark). -/
def Box.createFromCoord (left top right bottom id mark : Int) : Box :=
  { width := right - left, height := bottom - top, left := left, top := top,
    right := right, bottom := bottom, id := id, mark := mark, needRemove := false }

/-- Box.prototype.clone(): copies coordinates and id, resets mark to 0
(and needRemove to its default false). -/
def Box.clone (b : Box) : Box :=
  { width := b.width, height := b.height, left := b.left, top := b.top,
    right := b.right, bottom := b.bottom, id := b.id, mark := 0, needRemove := false }

/-- Box.prototype.setCoord(left, top, right, bottom). -/
def Box.setCoord (b : Box) (left top right bottom : Int) : Box :=
  { b with width := right - left, height := bottom - top,
           top := top, left := left, right := right, bottom := bottom }

/-- Box.prototype.setSize(width, height). -/
def Box.setSize (b : Box) (width height : Int) : Box :=
  { b with width := width, height := height,
           right := b.left + width, bottom := b.top + height }

/-- Box.prototype.square(). -/
def Box.square (b : Box) : Int := b.width * b.height

/-- Box.isContained(a, b): a fully inside b, boundaries inclusive. -/
def Box.isContained (a b : Box) : Bool :=
  decide (a.left ≥ b.left ∧ a.top ≥ b.top ∧ a.right ≤ b.right ∧ a.bottom ≤ b.bottom)

/-- Box.isTouched(a, b): strict open-interval overlap on both axes. -/
def Box.isTouched (a b : Box) : Bool :=
  decide (a.right > b.left ∧ a.left < b.right ∧ a.bottom > b.top ∧ a.top < b.bottom)

/-- Box.isSeparated(a, b): the negated disjunction from the source.  (Despite
its name the source returns true when the boxes overlap.) -/
def Box.isSeparated (a b : Box) : Bool :=
  !decide (b.left ≥ a.right ∨ b.right ≤ a.left ∨ b.top ≥ a.bottom ∨ b.bottom ≤ a.top)

/-- The BOTTOM_RIGHT_MARK constant (Number.MAX_SAFE_INTEGER). -/
def BOTTOM_RIGHT_MARK : Int := 9007199254740991

/-- Packer state: container dimensions, the five box collections, the
prepared flag and the cached fullness (sentinel some (-1) = unknown,
none = the non-finite result of a division by zero). -/
structure Packer where
  containerWidth : Int
  containerHeight : Int
  boxes : List Box
  packedBoxes : List Box
  freeBoxes : List Box
  badBoxes : List Box
  notPlacedBoxes : List Box
  isPrepared : Bool
  fullnessCache : Option ℚ
deriving Repr, DecidableEq

/-- Constructor new Packer(containerWidth, containerHeight): empty
collections, not prepared, fullness cache holding the -1 sentinel. -/
def Packer.init (containerWidth containerHeight : Int) : Packer :=
  { containerWidth := containerWidth, containerHeight := containerHeight,
    boxes := [], packedBoxes := [], freeBoxes := [], badBoxes := [],
    notPlacedBoxes := [], isPrepared := false, fullnessCache := some (-1) }

/-- Packer.prototype.resizeContainer(width, height). -/
def Packer.resizeContainer (s : Packer) (width height : Int) : Packer :=
  { s with containerWidth := width, containerHeight := height }

/-- Packer.prototype.reset(): clears the derived collections and resets the
fullness cache and prepared flag; pending boxes are kept. -/
def Packer.reset (s : Packer) : Packer :=
  { s with packedBoxes := [], freeBoxes := [], badBoxes := [],
           notPlacedBoxes := [], fullnessCache := some (-1), isPrepared := false }

/-- Packer.prototype.clear(): empties the pending list and resets. -/
def Packer.clear (s : Packer) : Packer :=
  Packer.reset { s with boxes := [] }

/-- Packer.prototype.addBox(width, height, id): stores the box with the
smaller input dimension as width, and marks the state unprepared. -/
def Packer.addBox (s : Packer) (width height id : Int) : Packer :=
  { s with boxes := s.boxes ++ [Box.createFromSize (min width height) (max width height) id 0],
           isPrepared := false }

/-- The rejection predicate of Packer.prototype.filterBadBoxes: oversized in
both container dimensions (in either stored dimension) or non-positive. -/
def Packer.isBadBox (s : Packer) (box : Box) : Bool :=
  decide ((box.width > s.containerWidth ∧ box.width > s.containerHeight) ∨
          (box.height > s.containerWidth ∧ box.height > s.containerHeight) ∨
          box.width ≤ 0 ∨ box.height ≤ 0)

/-- The sort comparator of Packer.prototype.prepare as a total preorder:
a may precede b when the comparator (a, b) => a.width === b.width ?
b.height - a.height : b.width - a.width is ≤ 0. -/
def Packer.sortLE (a b : Box) : Bool :=
  if a.width = b.width then decide (b.height ≤ a.height) else decide (b.width < a.width)

/-- Stable insertion into a sorted list (earlier elements stay first on
ties because sortLE is true on equal keys). -/
def insertSorted (b : Box) : List Box → List Box
  | [] => [b]
  | x :: xs => if Packer.sortLE b x then b :: x :: xs else x :: insertSorted b xs

/-- Stable sort used to embed Array.prototype.sort (stable per ES2019) with
the prepare comparator: a stable sort by a total preorder is unique, so
this insertion sort computes the same list as the engine's sort. -/
def sortBoxes (l : List Box) : List Box := l.foldr insertSorted []

/-- Packer.prototype.addFreeBox(left, top, right, bottom). -/
def Packer.addFreeBox (s : Packer) (left top right bottom : Int) : Packer :=
  { s with freeBoxes := s.freeBoxes ++ [Box.createFromCoord left top right bottom 0 0] }

/-- Packer.prototype.filterBadBoxes(boxes): pushes rejected boxes onto
badBoxes and returns the kept ones. -/
def Packer.filterBadBoxes (s : Packer) (boxes : List Box) : Packer × List Box :=
  ({ s with badBoxes := s.badBoxes ++ boxes.filter s.isBadBox },
   boxes.filter (fun b => !s.isBadBox b))

/-- Packer.prototype.prepare(): reset, filter, sort, seed free space with
the whole container, set the prepared flag. -/
def Packer.prepare (s : Packer) : Packer :=
  let s1 := s.reset
  let pr := s1.filterBadBoxes s1.boxes
  let s2 := { pr.1 with boxes := sortBoxes pr.2 }
  let s3 := s2.addFreeBox 0 0 s2.containerWidth s2.containerHeight
  { s3 with isPrepared := true }

/-- Packer.prototype.commonIntervalLength(startA, endA, startB, endB). -/
def Packer.commonIntervalLength (startA endA startB endB : Int) : Int :=
  if endA < startB ∨ endB < startA then 0 else min endA endB - max startA startB

/-- Packer.prototype.calculateScore(left, top, right, bottom). -/
def Packer.calculateScore (s : Packer) (left top right bottom : Int) : Int :=
  let score : Int := 0
  let score := if left = 0 ∨ right = s.containerWidth then score + (bottom - top) else score
  let score := if top = 0 ∨ bottom = s.containerHeight then score + (right - left) else score
  s.packedBoxes.foldl
    (fun score box =>
      let score :=
        if box.left = right ∨ box.right = left then
          score + Packer.commonIntervalLength box.top box.bottom top bottom
        else score
      if box.top = bottom ∨ box.bottom = top then
        score + Packer.commonIntervalLength box.left box.right left right
      else score)
    score

/-- First candidate check of one findBoxPosition iteration: the box can
fit horizontally (as stored); on a strictly better score the testBox
coordinates are overwritten. -/
def Packer.fbpCand1 (s : Packer) (box freeBox : Box) (bestScore : Int) (testBox : Box) :
    Int × Box :=
  if freeBox.width ≥ box.width ∧ freeBox.height ≥ box.height then
    let score := s.calculateScore freeBox.left freeBox.top
      (freeBox.left + box.width) (freeBox.top + box.height)
    if score > bestScore then
      (score, testBox.setCoord freeBox.left freeBox.top
        (freeBox.left + box.width) (freeBox.top + box.height))
    else (bestScore, testBox)
  else (bestScore, testBox)

/-- Second candidate check of one findBoxPosition iteration: the box can
fit vertically (dimensions swapped). -/
def Packer.fbpCand2 (s : Packer) (box freeBox : Box) (p : Int × Box) : Int × Box :=
  if freeBox.width ≥ box.height ∧ freeBox.height ≥ box.width then
    let score := s.calculateScore freeBox.left freeBox.top
      (freeBox.left + box.height) (freeBox.top + box.width)
    if score > p.1 then
      (score, p.2.setCoord freeBox.left freeBox.top
        (freeBox.left + box.height) (freeBox.top + box.width))
    else p
  else p

/-- Loop body of Packer.prototype.findBoxPosition over the free boxes,
threading the running best score and the mutated testBox through the two
candidate checks of each iteration. -/
def Packer.findBoxPositionGo (s : Packer) (box : Box) :
    List Box → Int → Box → Int × Box
  | [], bestScore, testBox => (bestScore, testBox)
  | freeBox :: rest, bestScore, testBox =>
    let p := Packer.fbpCand2 s box freeBox (Packer.fbpCand1 s box freeBox bestScore testBox)
    Packer.findBoxPositionGo s box rest p.1 p.2

/-- Packer.prototype.findBoxPosition(box, testBox): bestScore starts at -1,
testBox.mark is set to 0, the free boxes are scanned, and finally the mark
receives the best score and the id is copied from box. -/
def Packer.findBoxPosition (s : Packer) (box testBox : Box) : Box :=
  let r := Packer.findBoxPositionGo s box s.freeBoxes (-1) { testBox with mark := 0 }
  { r.2 with mark := r.1, id := box.id }

/-- Packer.prototype.splitFreeBox(freeBox, box): the up-to-four residual
strips, in the source's push order (top, bottom, left, right). -/
def Packer.splitFreeBox (freeBox box : Box) : List Box :=
  (if box.top > freeBox.top ∧ box.top < freeBox.bottom then
    [Box.createFromCoord freeBox.left freeBox.top freeBox.right box.top 0 0] else []) ++
  (if box.bottom < freeBox.bottom then
    [Box.createFromCoord freeBox.left box.bottom freeBox.right freeBox.bottom 0 0] else []) ++
  (if box.left > freeBox.left ∧ box.left < freeBox.right then
    [Box.createFromCoord freeBox.left freeBox.top box.left freeBox.bottom 0 0] else []) ++
  (if box.right < freeBox.right then
    [Box.createFromCoord box.right freeBox.top freeBox.right freeBox.bottom 0 0] else [])

/-- First pass of Packer.prototype.addPackedBox: the for..of loop over
freeBoxes that splits and marks every free box overlapping the placed box.
The source iterates over the array while splitFreeBox pushes new strips
onto its end, so the strips are visited too; the todo list models the
not-yet-visited portion of the growing array.  Each visited element
consumes one unit of fuel and appends at most four strips, and a strip is
never split again (each strip shares an edge coordinate with box, so
isSeparated strip box is false); hence 5 * (original length) + 1 fuel
strictly exceeds the number of elements ever visited. -/
def Packer.splitPassGo (box : Box) : Nat → List Box → List Box
  | _, [] => []
  | 0, todo => todo
  | fuel+1, f :: rest =>
    if Box.isSeparated f box then
      { f with needRemove := true } ::
        Packer.splitPassGo box fuel (rest ++ Packer.splitFreeBox f box)
    else
      f :: Packer.splitPassGo box fuel rest

/-- Inner j-loop of the containment pass of addPackedBox.  It runs for
j = j0 .. arr.length - 1, so arr.length fuel suffices; List.set keeps the
length constant. -/
def Packer.markContainedJ : Nat → List Box → Nat → Nat → List Box
  | 0, arr, _, _ => arr
  | fuel+1, arr, i, j =>
    if j < arr.length then
      let box1 := arr.getD i Box.mkDefault
      let box2 := arr.getD j Box.mkDefault
      if box2.needRemove then Packer.markContainedJ fuel arr i (j+1)
      else if Box.isContained box1 box2 then arr.set i { box1 with needRemove := true }
      else if Box.isContained box2 box1 then
        Packer.markContainedJ fuel (arr.set j { box2 with needRemove := true }) i (j+1)
      else Packer.markContainedJ fuel arr i (j+1)
    else arr

/-- Outer i-loop of the containment pass of addPackedBox.  The source
condition i < freeBoxes.length - 1 is written i + 1 < arr.length (equal on
natural lengths); it runs for i = 0 .. arr.length - 2, so arr.length fuel
suffices. -/
def Packer.markContainedI : Nat → List Box → Nat → List Box
  | 0, arr, _ => arr
  | fuel+1, arr, i =>
    if i + 1 < arr.length then
      let box1 := arr.getD i Box.mkDefault
      if box1.needRemove then Packer.markContainedI fuel arr (i+1)
      else Packer.markContainedI fuel (Packer.markContainedJ arr.length arr i (i+1)) (i+1)
    else arr

/-- Packer.prototype.addPackedBox(box): split pass, containment pass,
filter out the marked free boxes, push the packed box. -/
def Packer.addPackedBox (s : Packer) (box : Box) : Packer :=
  let fb1 := Packer.splitPassGo box (5 * s.freeBoxes.length + 1) s.freeBoxes
  let fb2 := Packer.markContainedI fb1.length fb1 0
  { s with freeBoxes := fb2.filter (fun b => !b.needRemove),
           packedBoxes := s.packedBoxes ++ [box] }

/-- Candidate-selection scan of one iteration of the pack loop: for each
pending box not yet marked, findBoxPosition is run (mutating testBox) and
the strictly best mark with its clone and index is retained. -/
def Packer.packSelectGo (s : Packer) :
    List Box → Nat → Int → Option (Box × Nat) → Box → Int × Option (Box × Nat) × Box
  | [], _, bestScore, best, testBox => (bestScore, best, testBox)
  | b :: rest, i, bestScore, best, testBox =>
    if b.needRemove then Packer.packSelectGo s rest (i+1) bestScore best testBox
    else
      let t := s.findBoxPosition b testBox
      if t.mark > bestScore then
        Packer.packSelectGo s rest (i+1) t.mark (some (t.clone, i)) t
      else Packer.packSelectGo s rest (i+1) bestScore best t

/-- One scan over all pending boxes with bestScore starting at 0 and no
best candidate (bestBoxIndex = -1 is the none case). -/
def Packer.packSelect (s : Packer) (testBox : Box) : Int × Option (Box × Nat) × Box :=
  Packer.packSelectGo s s.boxes 0 0 none testBox

/-- Commit of one selected placement: addPackedBox(bestBox) followed by
boxes[bestBoxIndex].needRemove = true. -/
def Packer.packStep (s : Packer) (bestBox : Box) (bestBoxIndex : Nat) : Packer :=
  let s1 := s.addPackedBox bestBox
  let marked := { s1.boxes.getD bestBoxIndex Box.mkDefault with needRemove := true }
  { s1 with boxes := s1.boxes.set bestBoxIndex marked }

/-- The while loop of Packer.prototype.pack.  Every iteration that places a
box marks one previously unmarked pending box, so at most boxes.length
placing iterations can occur, followed by at most one non-placing
iteration (which exits); boxes.length + 1 fuel therefore strictly covers
every iteration the source loop performs. -/
def Packer.packLoop : Nat → Packer → Box → Packer
  | 0, s, _ => s
  | fuel+1, s, testBox =>
    if s.boxes.length = s.packedBoxes.length then s
    else
      let r := s.packSelect testBox
      match r.2.1 with
      | none => s
      | some (bb, i) => Packer.packLoop fuel (s.packStep bb i) r.2.2

/-- Body of Packer.prototype.pack after the preparation check: the while
loop, then the final for loop that pushes every unmarked box onto
notPlacedBoxes and clears all needRemove flags. -/
def Packer.packPrepared (s : Packer) : Packer :=
  let s1 := Packer.packLoop (s.boxes.length + 1) s Box.mkDefault
  { s1 with
    notPlacedBoxes := s1.notPlacedBoxes ++ s1.boxes.filter (fun b => !b.needRemove),
    boxes := s1.boxes.map (fun b => { b with needRemove := false }) }

/-- Packer.prototype.pack(): prepare if not already prepared, then run the
loop body; the source returns this.packedBoxes of the final state. -/
def Packer.pack (s : Packer) : Packer :=
  if s.isPrepared then s.packPrepared else s.prepare.packPrepared

/-- First marking pass of calculateFullness: the bottom-right free box(es)
get BOTTOM_RIGHT_MARK, all others mark 0. -/
def Packer.fullnessMarkInit (s : Packer) : List Box :=
  s.freeBoxes.map fun box =>
    if box.right = s.containerWidth ∧ box.bottom = s.containerHeight then
      { box with mark := BOTTOM_RIGHT_MARK }
    else { box with mark := 0 }

/-- Inner j-loop of the touching pass of calculateFullness, threading the
nextMark counter; arr.length fuel suffices as in markContainedJ. -/
def Packer.fullnessMarkJ : Nat → List Box → Int → Nat → Nat → List Box × Int
  | 0, arr, nextMark, _, _ => (arr, nextMark)
  | fuel+1, arr, nextMark, i, j =>
    if j < arr.length then
      let box1 := arr.getD i Box.mkDefault
      let box2 := arr.getD j Box.mkDefault
      if Box.isTouched box1 box2 then
        let mark0 := max box1.mark box2.mark
        let mark := if mark0 = 0 then nextMark else mark0
        let next1 := if mark0 = 0 then nextMark + 1 else nextMark
        Packer.fullnessMarkJ fuel
          ((arr.set j { box2 with mark := mark }).set i { box1 with mark := mark })
          next1 i (j+1)
      else Packer.fullnessMarkJ fuel arr nextMark i (j+1)
    else (arr, nextMark)

/-- Outer i-loop of the touching pass of calculateFullness; arr.length fuel
suffices as in markContainedI. -/
def Packer.fullnessMarkI : Nat → List Box → Int → Nat → List Box
  | 0, arr, _, _ => arr
  | fuel+1, arr, nextMark, i =>
    if i + 1 < arr.length then
      let p := Packer.fullnessMarkJ arr.length arr nextMark i (i+1)
      Packer.fullnessMarkI fuel p.1 p.2 (i+1)
    else arr

/-- Packer.prototype.calculateFullness(): mark passes, inner and packed
area sums, and the ratio 1 - inner / (packed + inner).  When the
denominator is zero the source's floating-point division yields NaN
(inner = 0) or an infinity, stored here as none. -/
def Packer.calculateFullness (s : Packer) : Packer :=
  let fb1 := s.fullnessMarkInit
  let fb2 := Packer.fullnessMarkI fb1.length fb1 1 0
  let innerSquare : Int := fb2.foldl
    (fun accum box => if box.mark ≠ BOTTOM_RIGHT_MARK then accum + box.square else accum) 0
  let boxSquare : Int := s.packedBoxes.foldl (fun accum box => accum + box.square) 0
  let v : Option ℚ :=
    if boxSquare + innerSquare = 0 then none
    else some (1 - (innerSquare : ℚ) / ((boxSquare : ℚ) + (innerSquare : ℚ)))
  { s with freeBoxes := fb2, fullnessCache := v }

/-- The fullness getter: recomputes when the cache holds the -1 sentinel,
otherwise returns the cached value; the pair carries the possibly updated
state and the returned value. -/
def Packer.fullness (s : Packer) : Packer × Option ℚ :=
  if s.fullnessCache = some (-1) then
    let s1 := s.calculateFullness
    (s1, s1.fullnessCache)
  else (s, s.fullnessCache)

/-- Packer.prototype.boxesSize(). -/
def Packer.boxesSize (s : Packer) : Nat := s.boxes.length

/-- Helper for trace statements: a sequence of addBox calls. -/
def Packer.addBoxes (s : Packer) : List (Int × Int × Int) → Packer
  | [] => s
  | (w, h, i) :: rest => Packer.addBoxes (s.addBox w h i) rest

/-! ## Geometric vocabulary used by the specification statements -/

/-- The derived-bounds invariant of a rectangle: width and height agree
with the bounds. -/
def Coherent (b : Box) : Prop :=
  b.width = b.right - b.left ∧ b.height = b.bottom - b.top

/-- The rectangle lies inside the container [0, W] x [0, H]. -/
def InBounds (W H : Int) (b : Box) : Prop :=
  0 ≤ b.left ∧ 0 ≤ b.top ∧ b.right ≤ W ∧ b.bottom ≤ H

/-- A point interior to the rectangle. -/
def InOpen (b : Box) (x y : Int) : Prop :=
  b.left < x ∧ x < b.right ∧ b.top < y ∧ y < b.bottom

/-- A point of the closed rectangle. -/
def InClosed (b : Box) (x y : Int) : Prop :=
  b.left ≤ x ∧ x ≤ b.right ∧ b.top ≤ y ∧ y ≤ b.bottom

/-- Rectangle a lies within rectangle b, boundaries inclusive. -/
def ClosedWithin (a b : Box) : Prop :=
  b.left ≤ a.left ∧ a.right ≤ b.right ∧ b.top ≤ a.top ∧ a.bottom ≤ b.bottom

/-- Closed-interval intersection on both axes, as the specification words
the separation/overlap test (boundary-inclusive). -/
def specClosedIntersect (a b : Box) : Prop :=
  b.left ≤ a.right ∧ a.left ≤ b.right ∧ b.top ≤ a.bottom ∧ a.top ≤ b.bottom

/-! ## Basic facts about the three predicates -/

theorem isSeparated_iff (a b : Box) :
    Box.isSeparated a b = true ↔
      (b.left < a.right ∧ a.left < b.right ∧ b.top < a.bottom ∧ a.top < b.bottom) := by
  simp only [Box.isSeparated, Bool.not_eq_true', decide_eq_false_iff_not]
  push_neg
  omega

theorem isSeparated_eq_false_iff (a b : Box) :
    Box.isSeparated a b = false ↔
      (a.right ≤ b.left ∨ b.right ≤ a.left ∨ a.bottom ≤ b.top ∨ b.bottom ≤ a.top) := by
  rw [← Bool.not_eq_true, isSeparated_iff]
  omega

theorem isTouched_iff (a b : Box) :
    Box.isTouched a b = true ↔
      (a.right > b.left ∧ a.left < b.right ∧ a.bottom > b.top ∧ a.top < b.bottom) := by
  simp [Box.isTouched]

theorem isSeparated_comm (a b : Box) :
    Box.isSeparated a b = Box.isSeparated b a := by
  rcases h : Box.isSeparated b a with _ | _
  · rw [isSeparated_eq_false_iff] at h ⊢
    omega
  · rw [isSeparated_iff] at h ⊢
    omega

theorem isContained_iff (a b : Box) :
    Box.isContained a b = true ↔
      (a.left ≥ b.left ∧ a.top ≥ b.top ∧ a.right ≤ b.right ∧ a.bottom ≤ b.bottom) := by
  simp [Box.isContained]

/-- Overlap is antitone under closed containment: a rectangle within a
cannot overlap anything a does not overlap. -/
theorem isSeparated_false_of_within {a' a b : Box}
    (hw : ClosedWithin a' a) (h : Box.isSeparated a b = false) :
    Box.isSeparated a' b = false := by
  rw [isSeparated_eq_false_iff] at h ⊢
  obtain ⟨h1, h2, h3, h4⟩ := hw
  omega

/-! ## Claim C6: the separation/overlap test versus the touching test -/

/-- Claim C6, counterexample: for the edge-adjacent boxes [0,1]x[0,1] and
[1,2]x[0,1] the closed coordinate intervals intersect on both axes, yet
Box.isSeparated returns false (and Box.isTouched is also false), so the
claimed closed-interval reading of isSeparated, and the claimed
disagreement of the two predicates on edge-adjacent boxes, are both false
on the code. -/
theorem c6_counterexample :
    specClosedIntersect (Box.createFromCoord 0 0 1 1 0 0) (Box.createFromCoord 1 0 2 1 0 0) ∧
    Box.isSeparated (Box.createFromCoord 0 0 1 1 0 0) (Box.createFromCoord 1 0 2 1 0 0) = false ∧
    Box.isTouched (Box.createFromCoord 0 0 1 1 0 0) (Box.createFromCoord 1 0 2 1 0 0) = false := by
  refine ⟨?_, by decide, by decide⟩
  unfold specClosedIntersect Box.createFromCoord
  decide

/-- Claim C6, amended: Box.isSeparated a b is true exactly when the OPEN
coordinate intervals of a and b overlap on both axes, and it is
extensionally identical to Box.isTouched — the two predicates never
disagree, and for edge-adjacent boxes both are false. -/
theorem c6_amended (a b : Box) :
    (Box.isSeparated a b = true ↔
      (b.left < a.right ∧ a.left < b.right ∧ b.top < a.bottom ∧ a.top < b.bottom)) ∧
    Box.isSeparated a b = Box.isTouched a b := by
  refine ⟨isSeparated_iff a b, ?_⟩
  rcases h : Box.isTouched a b with _ | _
  · rw [isSeparated_eq_false_iff]
    rw [← Bool.not_eq_true, isTouched_iff] at h
    omega
  · rw [isSeparated_iff]
    rw [isTouched_iff] at h
    omega

/-! ## Claim C4: which mutations reset the fullness cache -/

/-- Claim C4, counterexample: reading fullness on a fresh engine caches the
NaN result (none); an addBox call immediately afterwards leaves the cache
at that value, not at the -1 sentinel — addBox does not invalidate the
stored fullness cache. -/
theorem c4_counterexample :
    ((((Packer.init 10 10).fullness).1.addBox 3 3 2).fullnessCache = none) ∧
    (Option.some (-1 : ℚ) ≠ none) := by
  exact ⟨rfl, by decide⟩

/-- Claim C4, amended: of the three mutations only clear() writes the -1
sentinel into the fullness cache; addBox and resizeContainer leave the
cache untouched (addBox clears the prepared flag instead, so the cache is
reset only by the preparation performed by the next pack() call). -/
theorem c4_amended (s : Packer) (w h id : Int) :
    (s.addBox w h id).fullnessCache = s.fullnessCache ∧
    (s.addBox w h id).isPrepared = false ∧
    (s.resizeContainer w h).fullnessCache = s.fullnessCache ∧
    (s.clear).fullnessCache = some (-1) := by
  exact ⟨rfl, rfl, rfl, rfl⟩

/-! ## Claim C9: resizeContainer is a pure dimension update -/

/-- Claim C9: resizeContainer changes only the stored container dimensions;
all five collections, the prepared flag and the fullness cache are
unchanged, and a subsequent pack() on a prepared engine skips the
preparation branch (it runs the bare loop body packPrepared). -/
theorem c9_resize_frame (s : Packer) (w h : Int) :
    (s.resizeContainer w h).boxes = s.boxes ∧
    (s.resizeContainer w h).packedBoxes = s.packedBoxes ∧
    (s.resizeContainer w h).freeBoxes = s.freeBoxes ∧
    (s.resizeContainer w h).badBoxes = s.badBoxes ∧
    (s.resizeContainer w h).notPlacedBoxes = s.notPlacedBoxes ∧
    (s.resizeContainer w h).isPrepared = s.isPrepared ∧
    (s.resizeContainer w h).fullnessCache = s.fullnessCache ∧
    (s.resizeContainer w h).containerWidth = w ∧
    (s.resizeContainer w h).containerHeight = h ∧
    (s.isPrepared = true →
      (s.resizeContainer w h).pack = (s.resizeContainer w h).packPrepared) := by
  refine ⟨rfl, rfl, rfl, rfl, rfl, rfl, rfl, rfl, rfl, fun hp => ?_⟩
  simp [Packer.pack, Packer.resizeContainer, hp]

/-- Witness for c9_resize_frame at a prepared concrete engine. -/
theorem c9_resize_frame_witness :
    ((Packer.init 4 4).prepare.isPrepared = true) ∧
    (((Packer.init 4 4).prepare.resizeContainer 2 3).pack =
      ((Packer.init 4 4).prepare.resizeContainer 2 3).packPrepared) := by
  exact ⟨rfl, (c9_resize_frame (Packer.init 4 4).prepare 2 3).2.2.2.2.2.2.2.2.2 rfl⟩

/-! ## Claim C5: pack() is not idempotent (code bug) -/

/-- Claim C5 fails on the code: with a 10x10 container and a single 5x5
box, the first pack() places the box and reports nothing unplaced, but a
second pack() with no intervening mutation pushes the very box that is
still reported as placed into the unplaced collection (the final loop of
pack() cleared all needRemove flags, so the already-consumed pending entry
is collected as not placed again).  The placed set itself is unchanged
here; with a mix of placed and unplaced boxes the second call can even
re-place an already placed rectangle. -/
theorem c5_code_bug :
    (((Packer.init 10 10).addBox 5 5 1).pack.notPlacedBoxes = []) ∧
    (((Packer.init 10 10).addBox 5 5 1).pack.pack.packedBoxes =
      ((Packer.init 10 10).addBox 5 5 1).pack.packedBoxes) ∧
    (((Packer.init 10 10).addBox 5 5 1).pack.pack.notPlacedBoxes =
      [Box.createFromSize 5 5 1 0]) ∧
    (((Packer.init 10 10).addBox 5 5 1).pack.pack.packedBoxes.map Box.id = [1]) := by
  refine ⟨?_, ?_, ?_, ?_⟩ <;> decide

/-! ## Characterization of splitFreeBox and the split pass -/

theorem mem_ite_singleton (c : Prop) [Decidable c] (x g : Box) :
    g ∈ (if c then [x] else []) ↔ c ∧ g = x := by
  split_ifs with h <;> simp [h]

theorem splitFreeBox_mem_iff (f b g : Box) :
    g ∈ Packer.splitFreeBox f b ↔
      ((b.top > f.top ∧ b.top < f.bottom) ∧
        g = Box.createFromCoord f.left f.top f.right b.top 0 0) ∨
      (b.bottom < f.bottom ∧
        g = Box.createFromCoord f.left b.bottom f.right f.bottom 0 0) ∨
      ((b.left > f.left ∧ b.left < f.right) ∧
        g = Box.createFromCoord f.left f.top b.left f.bottom 0 0) ∨
      (b.right < f.right ∧
        g = Box.createFromCoord b.right f.top f.right f.bottom 0 0) := by
  unfold Packer.splitFreeBox
  simp only [List.mem_append, mem_ite_singleton]
  tauto

theorem splitFreeBox_length_le (f b : Box) :
    (Packer.splitFreeBox f b).length ≤ 4 := by
  unfold Packer.splitFreeBox
  split_ifs <;> simp

theorem splitFreeBox_not_separated (f b : Box) :
    ∀ g ∈ Packer.splitFreeBox f b, Box.isSeparated g b = false := by
  intro g hg
  rcases (splitFreeBox_mem_iff f b g).1 hg with ⟨hc, rfl⟩ | ⟨hc, rfl⟩ | ⟨hc, rfl⟩ | ⟨hc, rfl⟩ <;>
    (rw [isSeparated_eq_false_iff]; simp only [Box.createFromCoord]; omega)

theorem splitFreeBox_needRemove (f b : Box) :
    ∀ g ∈ Packer.splitFreeBox f b, g.needRemove = false := by
  intro g hg
  rcases (splitFreeBox_mem_iff f b g).1 hg with ⟨hc, rfl⟩ | ⟨hc, rfl⟩ | ⟨hc, rfl⟩ | ⟨hc, rfl⟩ <;> rfl

/-- Cost of visiting one element of the split pass todo list: one for the
visit itself plus the number of strips it appends. -/
def stripCount (box f : Box) : Nat :=
  if Box.isSeparated f box then 1 + (Packer.splitFreeBox f box).length else 1

/-- Total number of visits the split pass will perform on a todo list. -/
def splitCost (box : Box) (l : List Box) : Nat := (l.map (stripCount box)).sum

theorem splitCost_nil (box : Box) : splitCost box [] = 0 := rfl

theorem splitCost_cons (box f : Box) (l : List Box) :
    splitCost box (f :: l) = stripCount box f + splitCost box l := by
  simp [splitCost]

theorem splitCost_append (box : Box) (l1 l2 : List Box) :
    splitCost box (l1 ++ l2) = splitCost box l1 + splitCost box l2 := by
  simp [splitCost]

theorem splitCost_of_not_separated (box : Box) (l : List Box)
    (h : ∀ x ∈ l, Box.isSeparated x box = false) :
    splitCost box l = l.length := by
  induction l with
  | nil => rfl
  | cons x xs ih =>
    have hx := h x (List.mem_cons_self x xs)
    have ihx := ih fun y hy => h y (List.mem_cons_of_mem x hy)
    rw [splitCost_cons]
    unfold stripCount
    rw [hx]
    simp only [Bool.false_eq_true, if_false, ihx, List.length_cons]
    omega

theorem splitCost_le (box : Box) (l : List Box) :
    splitCost box l ≤ 5 * l.length := by
  induction l with
  | nil => simp [splitCost_nil]
  | cons x xs ih =>
    rw [splitCost_cons]
    have h1 : stripCount box x ≤ 5 := by
      unfold stripCount
      split_ifs
      · have := splitFreeBox_length_le x box
        omega
      · omega
    simp only [List.length_cons]
    omega

theorem splitCost_pos (box f : Box) (l : List Box) :
    1 ≤ splitCost box (f :: l) := by
  rw [splitCost_cons]
  unfold stripCount
  split_ifs <;> omega

/-- Provenance of an element of the split pass output: either an original
free box or a strip split off an overlapping original. -/
def FromSplit (O : List Box) (box x : Box) : Prop :=
  x ∈ O ∨ ∃ f ∈ O, Box.isSeparated f box = true ∧ x ∈ Packer.splitFreeBox f box

/-- Every unmarked element of the split pass output does not overlap the
placed box and is an original or a strip of an overlapping original
(strips are never split again, so provenance never chains). -/
theorem splitPassGo_mem (box : Box) (O : List Box) :
    ∀ fuel todo, splitCost box todo ≤ fuel →
      (∀ x ∈ todo, FromSplit O box x) →
      ∀ g ∈ Packer.splitPassGo box fuel todo, g.needRemove = false →
        Box.isSeparated g box = false ∧ FromSplit O box g := by
  intro fuel
  induction fuel with
  | zero =>
    intro todo hc ht g hg
    cases todo with
    | nil => simp [Packer.splitPassGo] at hg
    | cons f rest =>
      have := splitCost_pos box f rest
      omega
  | succ n ih =>
    intro todo hc ht g hg hflag
    cases todo with
    | nil => simp [Packer.splitPassGo] at hg
    | cons f rest =>
      rw [Packer.splitPassGo] at hg
      by_cases hsep : Box.isSeparated f box = true
      · rw [if_pos hsep] at hg
        rcases List.mem_cons.1 hg with rfl | hg2
        · simp at hflag
        · have hfO : f ∈ O := by
            rcases ht f (List.mem_cons_self f rest) with hin | ⟨f2, hf2, hsep2, hstrip⟩
            · exact hin
            · exact absurd hsep (by simp [splitFreeBox_not_separated f2 box f hstrip])
          have hc2 : splitCost box (rest ++ Packer.splitFreeBox f box) ≤ n := by
            rw [splitCost_append,
              splitCost_of_not_separated box _ (splitFreeBox_not_separated f box)]
            rw [splitCost_cons] at hc
            unfold stripCount at hc
            rw [if_pos hsep] at hc
            omega
          refine ih _ hc2 ?_ g hg2 hflag
          intro x hx
          rcases List.mem_append.1 hx with hx1 | hx2
          · exact ht x (List.mem_cons_of_mem f hx1)
          · exact Or.inr ⟨f, hfO, hsep, hx2⟩
      · rw [if_neg hsep] at hg
        rcases List.mem_cons.1 hg with rfl | hg2
        · exact ⟨by simpa using hsep, ht g (List.mem_cons_self g rest)⟩
        · have hc2 : splitCost box rest ≤ n := by
            rw [splitCost_cons] at hc
            unfold stripCount at hc
            rw [if_neg hsep] at hc
            omega
          exact ih rest hc2 (fun x hx => ht x (List.mem_cons_of_mem f hx)) g hg2 hflag

/-! ## Characterization of the containment pass -/

/-- An element of a flag-raising pass output: some original, possibly with
its removal flag raised. -/
def UpToFlag (l : List Box) (g : Box) : Prop :=
  ∃ f ∈ l, g = f ∨ g = { f with needRemove := true }

theorem UpToFlag_refl (l : List Box) (g : Box) (h : g ∈ l) : UpToFlag l g :=
  ⟨g, h, Or.inl rfl⟩

theorem UpToFlag_set_flag (l : List Box) (i : Nat) (d : Box) (g : Box)
    (hg : g ∈ l.set i { l.getD i d with needRemove := true }) : UpToFlag l g := by
  rcases List.mem_or_eq_of_mem_set hg with hin | rfl
  · exact UpToFlag_refl l g hin
  · by_cases hi : i < l.length
    · exact ⟨l.getD i d, by rw [List.getD_eq_getElem l d hi]; exact List.getElem_mem hi, Or.inr rfl⟩
    · rw [List.set_eq_of_length_le (by omega)] at hg
      exact UpToFlag_refl _ _ hg

theorem UpToFlag_trans (l1 l2 : List Box) (g : Box)
    (h2 : UpToFlag l2 g) (h12 : ∀ x ∈ l2, UpToFlag l1 x) : UpToFlag l1 g := by
  obtain ⟨f, hf, hcase⟩ := h2
  obtain ⟨f2, hf2, hcase2⟩ := h12 f hf
  refine ⟨f2, hf2, ?_⟩
  rcases hcase with h | h <;> rcases hcase2 with hc | hc
  · exact Or.inl (h.trans hc)
  · exact Or.inr (h.trans hc)
  · exact Or.inr (h.trans (by rw [hc]))
  · exact Or.inr (h.trans (by rw [hc]))

theorem markContainedJ_mem :
    ∀ fuel arr i j, ∀ g ∈ Packer.markContainedJ fuel arr i j, UpToFlag arr g := by
  intro fuel
  induction fuel with
  | zero => intro arr i j g hg; exact UpToFlag_refl arr g (by simpa [Packer.markContainedJ] using hg)
  | succ n ih =>
    intro arr i j g hg
    simp only [Packer.markContainedJ] at hg
    by_cases hj : j < arr.length
    · rw [if_pos hj] at hg
      split_ifs at hg with h1 h2 h3
      · exact ih arr i (j+1) g hg
      · exact UpToFlag_set_flag arr i Box.mkDefault g hg
      · refine UpToFlag_trans arr _ g (ih _ i (j+1) g hg) ?_
        intro x hx
        exact UpToFlag_set_flag arr j Box.mkDefault x hx
      · exact ih arr i (j+1) g hg
    · rw [if_neg hj] at hg
      exact UpToFlag_refl arr g hg

theorem markContainedI_mem :
    ∀ fuel arr i, ∀ g ∈ Packer.markContainedI fuel arr i, UpToFlag arr g := by
  intro fuel
  induction fuel with
  | zero => intro arr i g hg; exact UpToFlag_refl arr g (by simpa [Packer.markContainedI] using hg)
  | succ n ih =>
    intro arr i g hg
    simp only [Packer.markContainedI] at hg
    by_cases hi : i + 1 < arr.length
    · rw [if_pos hi] at hg
      split_ifs at hg with h1
      · exact ih arr (i+1) g hg
      · refine UpToFlag_trans arr _ g (ih _ (i+1) g hg) ?_
        intro x hx
        exact markContainedJ_mem arr.length arr i (i+1) x hx
    · rw [if_neg hi] at hg
      exact UpToFlag_refl arr g hg

/-! ## Characterization of addPackedBox -/

theorem addPackedBox_packedBoxes (s : Packer) (box : Box) :
    (s.addPackedBox box).packedBoxes = s.packedBoxes ++ [box] := rfl

theorem addPackedBox_boxes (s : Packer) (box : Box) :
    (s.addPackedBox box).boxes = s.boxes := rfl

theorem addPackedBox_frame (s : Packer) (box : Box) :
    (s.addPackedBox box).containerWidth = s.containerWidth ∧
    (s.addPackedBox box).containerHeight = s.containerHeight ∧
    (s.addPackedBox box).badBoxes = s.badBoxes ∧
    (s.addPackedBox box).notPlacedBoxes = s.notPlacedBoxes ∧
    (s.addPackedBox box).isPrepared = s.isPrepared ∧
    (s.addPackedBox box).fullnessCache = s.fullnessCache :=
  ⟨rfl, rfl, rfl, rfl, rfl, rfl⟩

/-- Every free box surviving addPackedBox is unmarked, does not overlap the
placed box, and is either an original free box or a strip split off an
overlapping original free box. -/
theorem addPackedBox_free_mem (s : Packer) (box g : Box)
    (hg : g ∈ (s.addPackedBox box).freeBoxes) :
    g.needRemove = false ∧ Box.isSeparated g box = false ∧
      FromSplit s.freeBoxes box g := by
  have h1 : g ∈ Packer.markContainedI
      (Packer.splitPassGo box (5 * s.freeBoxes.length + 1) s.freeBoxes).length
      (Packer.splitPassGo box (5 * s.freeBoxes.length + 1) s.freeBoxes) 0 ∧
      (!g.needRemove) = true := List.mem_filter.1 hg
  have hflag : g.needRemove = false := by simpa using h1.2
  have h2 : UpToFlag (Packer.splitPassGo box (5 * s.freeBoxes.length + 1) s.freeBoxes) g :=
    markContainedI_mem _ _ 0 g h1.1
  obtain ⟨f, hf, hcase⟩ := h2
  have hgf : g = f := by
    rcases hcase with rfl | rfl
    · rfl
    · simp at hflag
  subst hgf
  have hcost : splitCost box s.freeBoxes ≤ 5 * s.freeBoxes.length + 1 := by
    have := splitCost_le box s.freeBoxes
    omega
  have h3 := splitPassGo_mem box s.freeBoxes (5 * s.freeBoxes.length + 1) s.freeBoxes
    hcost (fun x hx => Or.inl hx) g hf hflag
  exact ⟨hflag, h3.1, h3.2⟩

/-! ## Characterization of findBoxPosition -/

/-- The coordinates of a candidate returned by findBoxPosition: the
rectangle sits at the top-left corner of some free box, in one of the two
orientations of the pending box, and fits that free box. -/
def FitsAt (s : Packer) (box r : Box) : Prop :=
  ∃ f ∈ s.freeBoxes, ∃ w h : Int,
    ((w = box.width ∧ h = box.height) ∨ (w = box.height ∧ h = box.width)) ∧
    w ≤ f.width ∧ h ≤ f.height ∧
    r.left = f.left ∧ r.top = f.top ∧ r.right = f.left + w ∧ r.bottom = f.top + h ∧
    r.width = w ∧ r.height = h

/-- The invariant threaded through the findBoxPosition scan: either no
assignment has happened yet (score still -1) or the test box records a
valid fit. -/
def PairInv (s : Packer) (box : Box) (p : Int × Box) : Prop :=
  p.1 = -1 ∨ FitsAt s box p.2

theorem fitsAt_setCoord (s : Packer) (box t f : Box) (hf : f ∈ s.freeBoxes) (w h : Int)
    (hor : (w = box.width ∧ h = box.height) ∨ (w = box.height ∧ h = box.width))
    (hw : w ≤ f.width) (hh : h ≤ f.height) :
    FitsAt s box (t.setCoord f.left f.top (f.left + w) (f.top + h)) := by
  refine ⟨f, hf, w, h, hor, hw, hh, rfl, rfl, rfl, rfl, ?_, ?_⟩ <;>
    (simp only [Box.setCoord]; omega)

theorem pairInv_fbpCand1 (s : Packer) (box f : Box) (hf : f ∈ s.freeBoxes) (bs : Int) (t : Box)
    (hinv : PairInv s box (bs, t)) :
    PairInv s box (Packer.fbpCand1 s box f bs t) := by
  simp only [Packer.fbpCand1]
  split_ifs with hc hs
  · exact Or.inr (fitsAt_setCoord s box t f hf box.width box.height
      (Or.inl ⟨rfl, rfl⟩) hc.1 hc.2)
  · exact hinv
  · exact hinv

theorem pairInv_fbpCand2 (s : Packer) (box f : Box) (hf : f ∈ s.freeBoxes) (p : Int × Box)
    (hinv : PairInv s box p) :
    PairInv s box (Packer.fbpCand2 s box f p) := by
  simp only [Packer.fbpCand2]
  split_ifs with hc hs
  · exact Or.inr (fitsAt_setCoord s box p.2 f hf box.height box.width
      (Or.inr ⟨rfl, rfl⟩) hc.1 hc.2)
  · exact hinv
  · exact hinv

theorem pairInv_pair (s : Packer) (box : Box) (p : Int × Box) (h : PairInv s box p) :
    PairInv s box (p.1, p.2) := by
  rcases p with ⟨a, b⟩
  exact h

theorem findBoxPositionGo_char (s : Packer) (box : Box) :
    ∀ l, (∀ x ∈ l, x ∈ s.freeBoxes) → ∀ bs t, PairInv s box (bs, t) →
      PairInv s box (Packer.findBoxPositionGo s box l bs t) := by
  intro l
  induction l with
  | nil =>
    intro _ bs t hinv
    simpa [Packer.findBoxPositionGo] using hinv
  | cons f rest ih =>
    intro hmem bs t hinv
    have hf : f ∈ s.freeBoxes := hmem f (List.mem_cons_self f rest)
    rw [Packer.findBoxPositionGo]
    refine ih (fun x hx => hmem x (List.mem_cons_of_mem f hx)) _ _ ?_
    exact pairInv_pair s box _
      (pairInv_fbpCand2 s box f hf _ (pairInv_fbpCand1 s box f hf bs t hinv))

theorem fbpCand1_fst_indep (s : Packer) (box f : Box) (bs : Int) (t t2 : Box) :
    (Packer.fbpCand1 s box f bs t).1 = (Packer.fbpCand1 s box f bs t2).1 := by
  simp only [Packer.fbpCand1]
  split_ifs <;> rfl

theorem fbpCand2_fst_congr (s : Packer) (box f : Box) (p q : Int × Box) (h : p.1 = q.1) :
    (Packer.fbpCand2 s box f p).1 = (Packer.fbpCand2 s box f q).1 := by
  simp only [Packer.fbpCand2]
  rw [h]
  split_ifs
  · rfl
  · exact h
  · exact h

/-- The final best score of the scan does not depend on the incoming test
box: the score thread only reads the free boxes and the pending box. -/
theorem findBoxPositionGo_score_indep (s : Packer) (box : Box) :
    ∀ l bs t t2,
      (Packer.findBoxPositionGo s box l bs t).1 =
      (Packer.findBoxPositionGo s box l bs t2).1 := by
  intro l
  induction l with
  | nil => intro bs t t2; rfl
  | cons f rest ih =>
    intro bs t t2
    rw [Packer.findBoxPositionGo, Packer.findBoxPositionGo]
    have h1 : (Packer.fbpCand2 s box f (Packer.fbpCand1 s box f bs t)).1 =
        (Packer.fbpCand2 s box f (Packer.fbpCand1 s box f bs t2)).1 :=
      fbpCand2_fst_congr s box f _ _ (fbpCand1_fst_indep s box f bs t t2)
    calc (Packer.findBoxPositionGo s box rest
            (Packer.fbpCand2 s box f (Packer.fbpCand1 s box f bs t)).1
            (Packer.fbpCand2 s box f (Packer.fbpCand1 s box f bs t)).2).1
        = (Packer.findBoxPositionGo s box rest
            (Packer.fbpCand2 s box f (Packer.fbpCand1 s box f bs t2)).1
            (Packer.fbpCand2 s box f (Packer.fbpCand1 s box f bs t)).2).1 := by rw [h1]
      _ = (Packer.findBoxPositionGo s box rest
            (Packer.fbpCand2 s box f (Packer.fbpCand1 s box f bs t2)).1
            (Packer.fbpCand2 s box f (Packer.fbpCand1 s box f bs t2)).2).1 := ih _ _ _

theorem findBoxPosition_mark_indep (s : Packer) (box t t2 : Box) :
    (s.findBoxPosition box t).mark = (s.findBoxPosition box t2).mark := by
  unfold Packer.findBoxPosition
  exact findBoxPositionGo_score_indep s box s.freeBoxes (-1) _ _

theorem fitsAt_update_mark_id (s : Packer) (box r : Box) (m i : Int)
    (h : FitsAt s box r) : FitsAt s box { r with mark := m, id := i } := by
  obtain ⟨f, hf, w, hh, rest⟩ := h
  exact ⟨f, hf, w, hh, rest⟩

/-- A findBoxPosition result whose mark is not -1 records a valid fit. -/
theorem findBoxPosition_char (s : Packer) (box t : Box)
    (h : (s.findBoxPosition box t).mark ≠ -1) :
    FitsAt s box (s.findBoxPosition box t) := by
  unfold Packer.findBoxPosition at h ⊢
  have hinv := findBoxPositionGo_char s box s.freeBoxes (fun x hx => hx) (-1)
    { t with mark := 0 } (Or.inl rfl)
  rcases hinv with h1 | h1
  · exact absurd h1 (by simpa using h)
  · exact fitsAt_update_mark_id s box _ _ _ h1

theorem fitsAt_clone (s : Packer) (box r : Box) (h : FitsAt s box r) :
    FitsAt s box r.clone := by
  obtain ⟨f, hf, w, hh, hor, hw, hhh, h1, h2, h3, h4, h5, h6⟩ := h
  exact ⟨f, hf, w, hh, hor, hw, hhh, h1, h2, h3, h4, h5, h6⟩

/-! ## Characterization of the selection scan of the pack loop -/

/-- Evidence produced by a successful selection: the selected index names a
pending box that was not yet consumed, and the committed rectangle is the
clone of a findBoxPosition result with strictly positive mark. -/
def Selected (s : Packer) (bb : Box) (i : Nat) : Prop :=
  ∃ hlt : i < s.boxes.length,
    (s.boxes.get ⟨i, hlt⟩).needRemove = false ∧
    ∃ tb, bb = (s.findBoxPosition (s.boxes.get ⟨i, hlt⟩) tb).clone ∧
      (s.findBoxPosition (s.boxes.get ⟨i, hlt⟩) tb).mark > 0

theorem packSelectGo_some_keeps (s : Packer) :
    ∀ l i0 bs p tb, (Packer.packSelectGo s l i0 bs (some p) tb).2.1 ≠ none := by
  intro l
  induction l with
  | nil => intro i0 bs p tb h; simp [Packer.packSelectGo] at h
  | cons b rest ih =>
    intro i0 bs p tb h
    simp only [Packer.packSelectGo] at h
    split_ifs at h with h1 h2
    · exact ih _ _ _ _ h
    · exact ih _ _ _ _ h
    · exact ih _ _ _ _ h

theorem packSelectGo_some_char (s : Packer) :
    ∀ l i0 bs best tb bb j,
      l = s.boxes.drop i0 → 0 ≤ bs →
      (∀ bb0 j0, best = some (bb0, j0) → Selected s bb0 j0) →
      (Packer.packSelectGo s l i0 bs best tb).2.1 = some (bb, j) →
      Selected s bb j := by
  intro l
  induction l with
  | nil =>
    intro i0 bs best tb bb j _ _ hbest h
    exact hbest bb j (by simpa [Packer.packSelectGo] using h)
  | cons b rest ih =>
    intro i0 bs best tb bb j hdrop hbs hbest h
    have hi0 : i0 < s.boxes.length := by
      by_contra hlt
      rw [List.drop_eq_nil_of_le (by omega)] at hdrop
      simp at hdrop
    have hcons : s.boxes.drop i0 = s.boxes[i0] :: s.boxes.drop (i0 + 1) :=
      List.drop_eq_getElem_cons hi0
    rw [hcons] at hdrop
    obtain ⟨hb, hrest⟩ := List.cons.inj hdrop
    simp only [Packer.packSelectGo] at h
    split_ifs at h with h1 h2
    · exact ih (i0+1) bs best tb bb j hrest hbs hbest h
    · refine ih (i0+1) (s.findBoxPosition b tb).mark
        (some ((s.findBoxPosition b tb).clone, i0)) (s.findBoxPosition b tb)
        bb j hrest (by omega) ?_ h
      intro bb0 j0 heq
      injection heq with heq1
      injection heq1 with heq2 heq3
      refine ⟨by omega, ?_, tb, ?_, ?_⟩
      · have : s.boxes.get ⟨j0, by omega⟩ = b := by
          rw [hb]
          simp [← heq3]
        rw [this]
        simpa using h1
      · have : s.boxes.get ⟨j0, by omega⟩ = b := by
          rw [hb]
          simp [← heq3]
        rw [this, ← heq2]
      · have : s.boxes.get ⟨j0, by omega⟩ = b := by
          rw [hb]
          simp [← heq3]
        rw [this]
        omega
    · exact ih (i0+1) bs best (s.findBoxPosition b tb) bb j hrest hbs hbest h

theorem packSelectGo_none_char (s : Packer) :
    ∀ l i0 bs tb, (Packer.packSelectGo s l i0 bs none tb).2.1 = none →
      ∀ b ∈ l, b.needRemove = false →
        ∀ tb2, (s.findBoxPosition b tb2).mark ≤ bs := by
  intro l
  induction l with
  | nil => intro i0 bs tb _ b hb; simp at hb
  | cons b0 rest ih =>
    intro i0 bs tb h b hb hflag tb2
    simp only [Packer.packSelectGo] at h
    split_ifs at h with h1 h2
    · rcases List.mem_cons.1 hb with rfl | hb2
      · simp [hflag] at h1
      · exact ih (i0+1) bs _ h b hb2 hflag tb2
    · exact absurd h (packSelectGo_some_keeps s rest (i0+1) _ _ _)
    · rcases List.mem_cons.1 hb with rfl | hb2
      · calc (s.findBoxPosition b tb2).mark
            = (s.findBoxPosition b tb).mark := findBoxPosition_mark_indep s b tb2 tb
          _ ≤ bs := by omega
      · exact ih (i0+1) bs _ h b hb2 hflag tb2

/-- The selection evidence extracted from a successful packSelect. -/
theorem packSelect_some (s : Packer) (tb bb : Box) (i : Nat)
    (h : (s.packSelect tb).2.1 = some (bb, i)) : Selected s bb i := by
  refine packSelectGo_some_char s s.boxes 0 0 none tb bb i (List.drop_zero s.boxes).symm
    le_rfl ?_ h
  intro bb0 j0 heq
  simp at heq

/-- When packSelect finds no candidate, every unconsumed pending box has a
non-positive best mark (bestScore started at 0 and never moved). -/
theorem packSelect_none (s : Packer) (tb : Box)
    (h : (s.packSelect tb).2.1 = none) :
    ∀ b ∈ s.boxes, b.needRemove = false →
      ∀ tb2, (s.findBoxPosition b tb2).mark ≤ 0 :=
  packSelectGo_none_char s s.boxes 0 0 tb h

/-! ## Generic induction principle for the pack loop -/

theorem packLoop_inv (P : Packer → Prop)
    (hstep : ∀ s bb i, Selected s bb i → P s → P (s.packStep bb i)) :
    ∀ fuel s tb, P s → P (Packer.packLoop fuel s tb) := by
  intro fuel
  induction fuel with
  | zero => intro s tb h; simpa [Packer.packLoop] using h
  | succ n ih =>
    intro s tb h
    rw [Packer.packLoop]
    split_ifs with hlen
    · exact h
    · rcases hsel : (s.packSelect tb).2.1 with _ | ⟨bb, i⟩
      · simp only [hsel]
        exact h
      · simp only [hsel]
        exact ih _ _ (hstep s bb i (packSelect_some s tb bb i hsel) h)

/-! ## State-component lemmas for the pack pipeline -/

theorem packStep_boxes (s : Packer) (bb : Box) (i : Nat) :
    (s.packStep bb i).boxes =
      s.boxes.set i { s.boxes.getD i Box.mkDefault with needRemove := true } := rfl

theorem packStep_packedBoxes (s : Packer) (bb : Box) (i : Nat) :
    (s.packStep bb i).packedBoxes = s.packedBoxes ++ [bb] := rfl

theorem packStep_freeBoxes (s : Packer) (bb : Box) (i : Nat) :
    (s.packStep bb i).freeBoxes = (s.addPackedBox bb).freeBoxes := rfl

theorem packStep_frame (s : Packer) (bb : Box) (i : Nat) :
    (s.packStep bb i).containerWidth = s.containerWidth ∧
    (s.packStep bb i).containerHeight = s.containerHeight ∧
    (s.packStep bb i).badBoxes = s.badBoxes ∧
    (s.packStep bb i).notPlacedBoxes = s.notPlacedBoxes ∧
    (s.packStep bb i).isPrepared = s.isPrepared ∧
    (s.packStep bb i).fullnessCache = s.fullnessCache :=
  ⟨rfl, rfl, rfl, rfl, rfl, rfl⟩

theorem insertSorted_perm (b : Box) (l : List Box) :
    (insertSorted b l).Perm (b :: l) := by
  induction l with
  | nil => exact List.Perm.refl _
  | cons x xs ih =>
    rw [insertSorted]
    split_ifs
    · exact List.Perm.refl _
    · exact (ih.cons x).trans (List.Perm.swap b x xs)

theorem sortBoxes_perm (l : List Box) : (sortBoxes l).Perm l := by
  induction l with
  | nil => exact List.Perm.refl _
  | cons x xs ih => exact (insertSorted_perm x (sortBoxes xs)).trans (ih.cons x)

theorem reset_isBadBox (s : Packer) (b : Box) : s.reset.isBadBox b = s.isBadBox b := rfl

theorem prepare_fields (s : Packer) :
    (s.prepare).containerWidth = s.containerWidth ∧
    (s.prepare).containerHeight = s.containerHeight ∧
    (s.prepare).packedBoxes = [] ∧
    (s.prepare).freeBoxes = [Box.createFromCoord 0 0 s.containerWidth s.containerHeight 0 0] ∧
    (s.prepare).notPlacedBoxes = [] ∧
    (s.prepare).isPrepared = true ∧
    (s.prepare).fullnessCache = some (-1) ∧
    (s.prepare).boxes = sortBoxes (s.boxes.filter (fun b => !s.isBadBox b)) ∧
    (s.prepare).badBoxes = s.boxes.filter s.isBadBox :=
  ⟨rfl, rfl, rfl, rfl, rfl, rfl, rfl, rfl, rfl⟩

theorem addBoxes_boxes (l : List (Int × Int × Int)) :
    ∀ s : Packer, (Packer.addBoxes s l).boxes =
      s.boxes ++ l.map (fun p => Box.createFromSize (min p.1 p.2.1) (max p.1 p.2.1) p.2.2 0) := by
  induction l with
  | nil => intro s; simp [Packer.addBoxes]
  | cons p rest ih =>
    intro s
    rcases p with ⟨w, h, id⟩
    rw [Packer.addBoxes, ih]
    simp [Packer.addBox]

theorem addBoxes_frame (l : List (Int × Int × Int)) :
    ∀ s : Packer, (Packer.addBoxes s l).containerWidth = s.containerWidth ∧
      (Packer.addBoxes s l).containerHeight = s.containerHeight ∧
      (Packer.addBoxes s l).packedBoxes = s.packedBoxes ∧
      (Packer.addBoxes s l).freeBoxes = s.freeBoxes ∧
      (Packer.addBoxes s l).badBoxes = s.badBoxes ∧
      (Packer.addBoxes s l).notPlacedBoxes = s.notPlacedBoxes ∧
      (Packer.addBoxes s l).fullnessCache = s.fullnessCache := by
  induction l with
  | nil => intro s; exact ⟨rfl, rfl, rfl, rfl, rfl, rfl, rfl⟩
  | cons p rest ih =>
    intro s
    rcases p with ⟨w, h, id⟩
    rw [Packer.addBoxes]
    exact ih (s.addBox w h id)

theorem addBoxes_isPrepared (l : List (Int × Int × Int)) :
    ∀ s : Packer, s.isPrepared = false → (Packer.addBoxes s l).isPrepared = false := by
  induction l with
  | nil => intro s h; exact h
  | cons p rest ih =>
    intro s _
    rcases p with ⟨w, h, id⟩
    rw [Packer.addBoxes]
    exact ih (s.addBox w h id) rfl

/-! ## The geometric invariant of the placement loop -/

/-- Invariant carried through the pack loop: free boxes are coherent and in
bounds, packed boxes are coherent, positive, in bounds and pairwise
non-overlapping, free space never overlaps packed space, and pending boxes
have positive dimensions. -/
structure PackInv (s : Packer) : Prop where
  freeCoh : ∀ f ∈ s.freeBoxes, Coherent f
  freeBounds : ∀ f ∈ s.freeBoxes, InBounds s.containerWidth s.containerHeight f
  packedCoh : ∀ p ∈ s.packedBoxes, Coherent p
  packedBounds : ∀ p ∈ s.packedBoxes, InBounds s.containerWidth s.containerHeight p
  packedPos : ∀ p ∈ s.packedBoxes, 0 < p.width ∧ 0 < p.height
  packedSep : s.packedBoxes.Pairwise (fun p q => Box.isSeparated p q = false)
  freePackedSep : ∀ f ∈ s.freeBoxes, ∀ p ∈ s.packedBoxes, Box.isSeparated f p = false
  boxesPos : ∀ b ∈ s.boxes, 0 < b.width ∧ 0 < b.height

theorem inBounds_of_within {W H : Int} {g f : Box}
    (hw : ClosedWithin g f) (hb : InBounds W H f) : InBounds W H g := by
  obtain ⟨h1, h2, h3, h4⟩ := hw
  obtain ⟨h5, h6, h7, h8⟩ := hb
  exact ⟨by omega, by omega, by omega, by omega⟩

/-- The facts about a committed rectangle extracted from the selection
evidence: it is a coherent positive rectangle sitting inside one of the
free boxes, with a clean removal flag. -/
theorem selected_box_facts (s : Packer) (bb : Box) (i : Nat)
    (hsel : Selected s bb i)
    (hboxes : ∀ b ∈ s.boxes, 0 < b.width ∧ 0 < b.height)
    (hfreeCoh : ∀ f ∈ s.freeBoxes, Coherent f) :
    ∃ f ∈ s.freeBoxes, Coherent bb ∧ 0 < bb.width ∧ 0 < bb.height ∧
      ClosedWithin bb f ∧ bb.needRemove = false := by
  obtain ⟨hlt, hflag, tb, hbbeq, hmark⟩ := hsel
  have hfit := findBoxPosition_char s (s.boxes.get ⟨i, hlt⟩) tb (by omega)
  have hfitc := fitsAt_clone s _ _ hfit
  rw [← hbbeq] at hfitc
  obtain ⟨f, hf, w, h, hor, hw, hh, e1, e2, e3, e4, e5, e6⟩ := hfitc
  have hpos := hboxes (s.boxes.get ⟨i, hlt⟩) (List.get_mem s.boxes i hlt)
  have hwpos : 0 < w ∧ 0 < h := by
    rcases hor with ⟨rfl, rfl⟩ | ⟨rfl, rfl⟩
    · exact hpos
    · exact ⟨hpos.2, hpos.1⟩
  have hfc := hfreeCoh f hf
  obtain ⟨hc1, hc2⟩ := hfc
  refine ⟨f, hf, ⟨by omega, by omega⟩, by omega, by omega,
    ⟨by omega, by omega, by omega, by omega⟩, ?_⟩
  rw [hbbeq]
  rfl

/-- The geometric facts about a residual strip: coherent, flag clean, and
within the free box it was split from. -/
theorem strip_facts (f b g : Box) (hsep : Box.isSeparated f b = true)
    (hg : g ∈ Packer.splitFreeBox f b) :
    Coherent g ∧ ClosedWithin g f := by
  rw [isSeparated_iff] at hsep
  rcases (splitFreeBox_mem_iff f b g).1 hg with ⟨hc, rfl⟩ | ⟨hc, rfl⟩ | ⟨hc, rfl⟩ | ⟨hc, rfl⟩ <;>
    exact ⟨⟨rfl, rfl⟩, by constructor <;> simp [Box.createFromCoord] <;> omega⟩

theorem packStep_packInv (s : Packer) (bb : Box) (i : Nat)
    (hsel : Selected s bb i) (h : PackInv s) : PackInv (s.packStep bb i) := by
  obtain ⟨f0, hf0, hbbCoh, hbbW, hbbH, hbbWithin, hbbFlag⟩ :=
    selected_box_facts s bb i hsel h.boxesPos h.freeCoh
  have hbbBounds : InBounds s.containerWidth s.containerHeight bb :=
    inBounds_of_within hbbWithin (h.freeBounds f0 hf0)
  have hbbSepOld : ∀ p ∈ s.packedBoxes, Box.isSeparated bb p = false := fun p hp =>
    isSeparated_false_of_within hbbWithin (h.freePackedSep f0 hf0 p hp)
  obtain ⟨hlt, _, _⟩ := hsel
  have hfree := addPackedBox_free_mem s bb
  refine ⟨?_, ?_, ?_, ?_, ?_, ?_, ?_, ?_⟩
  · intro g hg
    rw [packStep_freeBoxes] at hg
    rcases (hfree g hg).2.2 with horig | ⟨f, hf, hsep, hstrip⟩
    · exact h.freeCoh g horig
    · exact (strip_facts f bb g hsep hstrip).1
  · intro g hg
    rw [packStep_freeBoxes] at hg
    rcases (hfree g hg).2.2 with horig | ⟨f, hf, hsep, hstrip⟩
    · exact h.freeBounds g horig
    · exact inBounds_of_within (strip_facts f bb g hsep hstrip).2 (h.freeBounds f hf)
  · intro p hp
    rw [packStep_packedBoxes] at hp
    rcases List.mem_append.1 hp with hp1 | hp2
    · exact h.packedCoh p hp1
    · rw [List.mem_singleton.1 hp2]
      exact hbbCoh
  · intro p hp
    rw [packStep_packedBoxes] at hp
    rcases List.mem_append.1 hp with hp1 | hp2
    · exact h.packedBounds p hp1
    · rw [List.mem_singleton.1 hp2]
      exact hbbBounds
  · intro p hp
    rw [packStep_packedBoxes] at hp
    rcases List.mem_append.1 hp with hp1 | hp2
    · exact h.packedPos p hp1
    · rw [List.mem_singleton.1 hp2]
      exact ⟨hbbW, hbbH⟩
  · rw [packStep_packedBoxes, List.pairwise_append]
    refine ⟨h.packedSep, List.pairwise_singleton _ _, ?_⟩
    intro p hp q hq
    rw [List.mem_singleton.1 hq, isSeparated_comm]
    exact hbbSepOld p hp
  · intro g hg p hp
    rw [packStep_freeBoxes] at hg
    rw [packStep_packedBoxes] at hp
    obtain ⟨_, hgbb, hprov⟩ := hfree g hg
    rcases List.mem_append.1 hp with hp1 | hp2
    · rcases hprov with horig | ⟨f, hf, hsep, hstrip⟩
      · exact h.freePackedSep g horig p hp1
      · exact isSeparated_false_of_within (strip_facts f bb g hsep hstrip).2
          (h.freePackedSep f hf p hp1)
    · rw [List.mem_singleton.1 hp2]
      exact hgbb
  · intro b hb
    rw [packStep_boxes] at hb
    rcases List.mem_or_eq_of_mem_set hb with hb1 | rfl
    · exact h.boxesPos b hb1
    · have := h.boxesPos (s.boxes.getD i Box.mkDefault)
        (by rw [List.getD_eq_getElem s.boxes Box.mkDefault hlt]; exact List.getElem_mem hlt)
      exact this

theorem packLoop_packInv (fuel : Nat) (s : Packer) (tb : Box) (h : PackInv s) :
    PackInv (Packer.packLoop fuel s tb) :=
  packLoop_inv PackInv packStep_packInv fuel s tb h

theorem isBadBox_false_pos (s : Packer) (b : Box) (h : s.isBadBox b = false) :
    0 < b.width ∧ 0 < b.height := by
  simp only [Packer.isBadBox, decide_eq_false_iff_not] at h
  push_neg at h
  omega

theorem prepare_packInv (s : Packer) : PackInv s.prepare := by
  refine ⟨?_, ?_, ?_, ?_, ?_, ?_, ?_, ?_⟩
  · intro f hf
    rw [prepare_fields s |>.2.2.2.1, List.mem_singleton] at hf
    rw [hf]
    exact ⟨rfl, rfl⟩
  · intro f hf
    rw [prepare_fields s |>.2.2.2.1, List.mem_singleton] at hf
    rw [hf, (prepare_fields s).1, (prepare_fields s).2.1]
    exact ⟨le_refl 0, le_refl 0, by simp [Box.createFromCoord], by simp [Box.createFromCoord]⟩
  · intro p hp
    rw [(prepare_fields s).2.2.1] at hp
    simp at hp
  · intro p hp
    rw [(prepare_fields s).2.2.1] at hp
    simp at hp
  · intro p hp
    rw [(prepare_fields s).2.2.1] at hp
    simp at hp
  · rw [(prepare_fields s).2.2.1]
    exact List.Pairwise.nil
  · intro f hf p hp
    rw [(prepare_fields s).2.2.1] at hp
    simp at hp
  · intro b hb
    rw [(prepare_fields s).2.2.2.2.2.2.2.1] at hb
    have hb2 := (sortBoxes_perm _).mem_iff.1 hb
    have hb3 := List.mem_filter.1 hb2
    exact isBadBox_false_pos s b (by simpa using hb3.2)

theorem packPrepared_packInv (s : Packer) (h : PackInv s) : PackInv s.packPrepared := by
  have hloop := packLoop_packInv (s.boxes.length + 1) s Box.mkDefault h
  set s1 := Packer.packLoop (s.boxes.length + 1) s Box.mkDefault with hs1
  refine ⟨hloop.freeCoh, hloop.freeBounds, hloop.packedCoh, hloop.packedBounds,
    hloop.packedPos, hloop.packedSep, hloop.freePackedSep, ?_⟩
  intro b hb
  simp only [Packer.packPrepared, ← hs1, List.mem_map] at hb
  obtain ⟨b0, hb0, rfl⟩ := hb
  exact hloop.boxesPos b0 hb0

theorem pack_packInv (s : Packer) (hprep : s.isPrepared = false) : PackInv s.pack := by
  rw [Packer.pack, hprep]
  simp only [Bool.false_eq_true, if_false]
  exact packPrepared_packInv s.prepare (prepare_packInv s)

/-- Container dimensions are unchanged by the whole pack pipeline. -/
theorem pack_dims (s : Packer) :
    (s.pack).containerWidth = s.containerWidth ∧
    (s.pack).containerHeight = s.containerHeight := by
  have hloop : ∀ fuel s2 tb, (Packer.packLoop fuel s2 tb).containerWidth = s2.containerWidth ∧
      (Packer.packLoop fuel s2 tb).containerHeight = s2.containerHeight := by
    intro fuel
    intro s2 tb
    exact packLoop_inv
      (fun s3 => s3.containerWidth = s2.containerWidth ∧ s3.containerHeight = s2.containerHeight)
      (fun s3 bb i _ hP => hP) fuel s2 tb ⟨rfl, rfl⟩
  rw [Packer.pack]
  split_ifs with hp
  · exact hloop _ s Box.mkDefault
  · have h1 := hloop (s.prepare.boxes.length + 1) s.prepare Box.mkDefault
    rw [Packer.packPrepared]
    exact ⟨h1.1.trans (prepare_fields s).1, h1.2.trans (prepare_fields s).2.1⟩

theorem packLoop_badBoxes (fuel : Nat) (s : Packer) (tb : Box) :
    (Packer.packLoop fuel s tb).badBoxes = s.badBoxes :=
  packLoop_inv (fun s2 => s2.badBoxes = s.badBoxes)
    (fun s2 bb i _ hp => ((packStep_frame s2 bb i).2.2.1).trans hp) fuel s tb rfl

theorem packLoop_notPlaced (fuel : Nat) (s : Packer) (tb : Box) :
    (Packer.packLoop fuel s tb).notPlacedBoxes = s.notPlacedBoxes :=
  packLoop_inv (fun s2 => s2.notPlacedBoxes = s.notPlacedBoxes)
    (fun s2 bb i _ hp => ((packStep_frame s2 bb i).2.2.2.1).trans hp) fuel s tb rfl

theorem packPrepared_badBoxes (s : Packer) : s.packPrepared.badBoxes = s.badBoxes := by
  rw [Packer.packPrepared]
  exact packLoop_badBoxes _ s Box.mkDefault

theorem packPrepared_notPlaced (s : Packer) :
    s.packPrepared.notPlacedBoxes = s.notPlacedBoxes ++
      (Packer.packLoop (s.boxes.length + 1) s Box.mkDefault).boxes.filter
        (fun b => !b.needRemove) := by
  rw [Packer.packPrepared]
  rw [packLoop_notPlaced]

/-- A flag-insensitive predicate on pending boxes is preserved by the pack
loop (the loop only raises removal flags on pending boxes). -/
theorem packLoop_boxes_pred (Q : Box → Prop)
    (hQ : ∀ b, Q b → Q { b with needRemove := true })
    (fuel : Nat) (s : Packer) (tb : Box) (h : ∀ b ∈ s.boxes, Q b) :
    ∀ b ∈ (Packer.packLoop fuel s tb).boxes, Q b := by
  refine packLoop_inv (fun s2 => ∀ b ∈ s2.boxes, Q b) ?_ fuel s tb h
  intro s2 bb i hsel hP b hb
  rw [packStep_boxes] at hb
  rcases List.mem_or_eq_of_mem_set hb with hb1 | rfl
  · exact hP b hb1
  · obtain ⟨hlt, _⟩ := hsel
    refine hQ _ (hP _ ?_)
    rw [List.getD_eq_getElem s2.boxes Box.mkDefault hlt]
    exact List.getElem_mem hlt

/-! ## Claim C1: placed rectangles are pairwise disjoint and in bounds -/

/-- The property claimed by C1 for the final engine state: any two distinct
placed rectangles fail the overlap test, and every placed rectangle lies
inside [0, W] x [0, H]. -/
def PlacedDisjointInBounds (W H : Int) (s : Packer) : Prop :=
  (∀ i j (hi : i < s.packedBoxes.length) (hj : j < s.packedBoxes.length), i ≠ j →
    Box.isSeparated s.packedBoxes[i] s.packedBoxes[j] = false) ∧
  ∀ p ∈ s.packedBoxes, 0 ≤ p.left ∧ 0 ≤ p.top ∧ p.right ≤ W ∧ p.bottom ≤ H

/-- Claim C1: for an engine built with positive container dimensions, after
any sequence of addBox calls and a single pack() call, the placed
rectangles are pairwise non-overlapping (the overlap test Box.isSeparated
is false for any two distinct placed rectangles) and each lies within
[0, containerWidth] x [0, containerHeight]. -/
theorem c1_placed_disjoint_in_bounds (W H : Int) (hW : 0 < W) (hH : 0 < H)
    (l : List (Int × Int × Int)) :
    PlacedDisjointInBounds W H ((Packer.addBoxes (Packer.init W H) l).pack) := by
  have hprep : (Packer.addBoxes (Packer.init W H) l).isPrepared = false :=
    addBoxes_isPrepared l (Packer.init W H) rfl
  have hinv := pack_packInv (Packer.addBoxes (Packer.init W H) l) hprep
  have hdW : ((Packer.addBoxes (Packer.init W H) l).pack).containerWidth = W :=
    (pack_dims _).1.trans (addBoxes_frame l (Packer.init W H)).1
  have hdH : ((Packer.addBoxes (Packer.init W H) l).pack).containerHeight = H :=
    (pack_dims _).2.trans (addBoxes_frame l (Packer.init W H)).2.1
  constructor
  · have hpw := hinv.packedSep
    rw [List.pairwise_iff_getElem] at hpw
    intro i j hi hj hne
    rcases Nat.lt_or_ge i j with hij | hij
    · exact hpw i j hi hj hij
    · have hji : j < i := by omega
      rw [isSeparated_comm]
      exact hpw j i hj hi hji
  · intro p hp
    have hb := hinv.packedBounds p hp
    rw [hdW, hdH] at hb
    exact hb

/-- Witness for c1_placed_disjoint_in_bounds at a concrete instance. -/
theorem c1_witness :
    (0 < (3 : Int)) ∧ (0 < (3 : Int)) ∧
    PlacedDisjointInBounds 3 3 ((Packer.addBoxes (Packer.init 3 3) [(1, 2, 7)]).pack) :=
  ⟨by decide, by decide, c1_placed_disjoint_in_bounds 3 3 (by decide) (by decide) [(1, 2, 7)]⟩

/-! ## Claim C8: dimensionally impossible rectangles are rejected -/

/-- The rejection condition of C8 on the original addBox arguments:
non-positive, or exceeding both container dimensions. -/
def BadInput (W H w h : Int) : Prop :=
  w ≤ 0 ∨ h ≤ 0 ∨ (w > W ∧ w > H) ∨ (h > W ∧ h > H)

theorem isBadBox_true_of (s : Packer) (b : Box)
    (h : (b.width > s.containerWidth ∧ b.width > s.containerHeight) ∨
      (b.height > s.containerWidth ∧ b.height > s.containerHeight) ∨
      b.width ≤ 0 ∨ b.height ≤ 0) : s.isBadBox b = true := by
  simp only [Packer.isBadBox, decide_eq_true_eq]
  exact h

/-- Claim C8: a rectangle added with non-positive dimensions, or whose
width exceeds both container dimensions, or whose height exceeds both
container dimensions, ends up in the rejected collection after pack() and
is in neither the placed nor the unplaced collection (the engine signals
this by classification only; every operation is total). -/
theorem c8_rejected (W H : Int) (l : List (Int × Int × Int)) (w h id : Int)
    (hmem : (w, h, id) ∈ l) (hbad : BadInput W H w h) :
    Box.createFromSize (min w h) (max w h) id 0 ∈
      ((Packer.addBoxes (Packer.init W H) l).pack).badBoxes ∧
    Box.createFromSize (min w h) (max w h) id 0 ∉
      ((Packer.addBoxes (Packer.init W H) l).pack).packedBoxes ∧
    Box.createFromSize (min w h) (max w h) id 0 ∉
      ((Packer.addBoxes (Packer.init W H) l).pack).notPlacedBoxes := by
  have hprep : (Packer.addBoxes (Packer.init W H) l).isPrepared = false :=
    addBoxes_isPrepared l (Packer.init W H) rfl
  have hcw : (Packer.addBoxes (Packer.init W H) l).containerWidth = W :=
    (addBoxes_frame l (Packer.init W H)).1
  have hch : (Packer.addBoxes (Packer.init W H) l).containerHeight = H :=
    (addBoxes_frame l (Packer.init W H)).2.1
  have hpack : (Packer.addBoxes (Packer.init W H) l).pack =
      (Packer.addBoxes (Packer.init W H) l).prepare.packPrepared := by
    rw [Packer.pack, hprep]
    simp
  have hboxes0 : (Packer.addBoxes (Packer.init W H) l).boxes =
      l.map (fun p => Box.createFromSize (min p.1 p.2.1) (max p.1 p.2.1) p.2.2 0) := by
    rw [addBoxes_boxes l (Packer.init W H)]
    rfl
  refine ⟨?_, ?_, ?_⟩
  · rw [hpack, packPrepared_badBoxes, (prepare_fields _).2.2.2.2.2.2.2.2, hboxes0]
    refine List.mem_filter.2 ⟨?_, ?_⟩
    · exact List.mem_map_of_mem (fun p => Box.createFromSize (min p.1 p.2.1)
        (max p.1 p.2.1) p.2.2 0) hmem
    · refine isBadBox_true_of _ _ ?_
      rw [hcw, hch]
      simp only [Box.createFromSize]
      rcases hbad with h1 | h1 | ⟨h1, h2⟩ | ⟨h1, h2⟩ <;> omega
  · intro hp
    have hinv := pack_packInv (Packer.addBoxes (Packer.init W H) l) hprep
    have hb4 : (Box.createFromSize (min w h) (max w h) id 0).bottom ≤
        ((Packer.addBoxes (Packer.init W H) l).pack).containerHeight :=
      (hinv.packedBounds _ hp).2.2.2
    have hp1 : 0 < (Box.createFromSize (min w h) (max w h) id 0).width :=
      (hinv.packedPos _ hp).1
    have hdH := (pack_dims (Packer.addBoxes (Packer.init W H) l)).2.trans hch
    have hb4h : max w h ≤ H := by
      calc max w h = (Box.createFromSize (min w h) (max w h) id 0).bottom := rfl
        _ ≤ ((Packer.addBoxes (Packer.init W H) l).pack).containerHeight := hb4
        _ = H := hdH
    have hp1h : 0 < min w h := hp1
    rcases hbad with h1 | h1 | ⟨h1, h2⟩ | ⟨h1, h2⟩ <;> omega
  · intro hp
    rw [hpack, packPrepared_notPlaced, (prepare_fields _).2.2.2.2.1] at hp
    rw [List.nil_append] at hp
    have hp2 := (List.mem_filter.1 hp).1
    have hgood : ∀ b ∈ (Packer.addBoxes (Packer.init W H) l).prepare.boxes,
        ¬((b.width > W ∧ b.width > H) ∨ (b.height > W ∧ b.height > H) ∨
          b.width ≤ 0 ∨ b.height ≤ 0) := by
      intro b hb
      rw [(prepare_fields _).2.2.2.2.2.2.2.1] at hb
      have hb2 := (sortBoxes_perm _).mem_iff.1 hb
      have hb3 := (List.mem_filter.1 hb2).2
      have hb4 : (Packer.addBoxes (Packer.init W H) l).isBadBox b = false := by
        simpa using hb3
      simp only [Packer.isBadBox, decide_eq_false_iff_not, hcw, hch] at hb4
      exact hb4
    have hQ := packLoop_boxes_pred
      (fun b => ¬((b.width > W ∧ b.width > H) ∨ (b.height > W ∧ b.height > H) ∨
        b.width ≤ 0 ∨ b.height ≤ 0))
      (fun b hb => hb) _ _ Box.mkDefault hgood _ hp2
    refine hQ ?_
    rcases hbad with h1 | h1 | ⟨h1, h2⟩ | ⟨h1, h2⟩
    · exact Or.inr (Or.inr (Or.inl (show min w h ≤ 0 by omega)))
    · exact Or.inr (Or.inr (Or.inl (show min w h ≤ 0 by omega)))
    · exact Or.inr (Or.inl (show max w h > W ∧ max w h > H by omega))
    · exact Or.inr (Or.inl (show max w h > W ∧ max w h > H by omega))

/-- Witness for c8_rejected: a 20x20 rectangle in a 10x10 container is
rejected and appears in no other collection. -/
theorem c8_witness :
    ((20, 20, 1) ∈ [((20 : Int), (20 : Int), (1 : Int))] ∧ BadInput 10 10 20 20) ∧
    (Box.createFromSize (min 20 20) (max 20 20) 1 0 ∈
      ((Packer.addBoxes (Packer.init 10 10) [(20, 20, 1)]).pack).badBoxes ∧
    Box.createFromSize (min 20 20) (max 20 20) 1 0 ∉
      ((Packer.addBoxes (Packer.init 10 10) [(20, 20, 1)]).pack).packedBoxes ∧
    Box.createFromSize (min 20 20) (max 20 20) 1 0 ∉
      ((Packer.addBoxes (Packer.init 10 10) [(20, 20, 1)]).pack).notPlacedBoxes) :=
  ⟨⟨by decide, by right; right; left; exact ⟨by decide, by decide⟩⟩,
    c8_rejected 10 10 [(20, 20, 1)] 20 20 1 (by decide)
      (by right; right; left; exact ⟨by decide, by decide⟩)⟩

/-! ## Counting lemmas for the pack loop -/

theorem countP_set (p : Box → Bool) (l : List Box) :
    ∀ (i : Nat) (x : Box), i < l.length →
      ((l.set i x).countP p : Int) =
        (l.countP p : Int) + (if p x then 1 else 0) -
          (if p (l.getD i Box.mkDefault) then 1 else 0) := by
  induction l with
  | nil => intro i x hi; simp at hi
  | cons y ys ih =>
    intro i x hi
    cases i with
    | zero =>
      rw [List.set_cons_zero, List.countP_cons, List.countP_cons, List.getD_cons_zero]
      split_ifs <;> push_cast <;> omega
    | succ n =>
      rw [List.set_cons_succ, List.countP_cons, List.countP_cons, List.getD_cons_succ]
      have h := ih n x (by simpa using hi)
      split_ifs at h ⊢ <;> push_cast at h ⊢ <;> omega

theorem countP_set_of (p : Box → Bool) (l : List Box) (i : Nat) (x : Box)
    (hi : i < l.length) (hx : p x = false)
    (hold : p (l.getD i Box.mkDefault) = true) :
    ((l.set i x).countP p : Int) = (l.countP p : Int) - 1 := by
  have h := countP_set p l i x hi
  rw [hx, hold] at h
  simp only [Bool.false_eq_true, if_false, if_true] at h
  omega

/-- The effect of one committed step on the unmarked count: the count drops
by exactly one (the selected index was unmarked and becomes marked). -/
theorem packStep_count (s : Packer) (bb : Box) (i : Nat) (hlt : i < s.boxes.length)
    (hflag : (s.boxes.get ⟨i, hlt⟩).needRemove = false) :
    ((s.packStep bb i).boxes.countP (fun b => !b.needRemove) : Int) =
      (s.boxes.countP (fun b => !b.needRemove) : Int) - 1 := by
  rw [packStep_boxes]
  have hflag2 : s.boxes[i].needRemove = false := hflag
  refine countP_set_of (fun b => !b.needRemove) s.boxes i _ hlt rfl ?_
  rw [List.getD_eq_getElem s.boxes Box.mkDefault hlt]
  simp [hflag2]

theorem packLoop_boxes_length (fuel : Nat) (s : Packer) (tb : Box) :
    (Packer.packLoop fuel s tb).boxes.length = s.boxes.length := by
  refine packLoop_inv (fun s2 => s2.boxes.length = s.boxes.length) ?_ fuel s tb rfl
  intro s2 bb i _ hp
  show (s2.packStep bb i).boxes.length = s.boxes.length
  rw [packStep_boxes, List.length_set]
  exact hp

/-- Through the loop, placements and removal marks balance: the number of
packed boxes plus the number of unmarked pending boxes is constant. -/
theorem packLoop_count (fuel : Nat) (s : Packer) (tb : Box) :
    (Packer.packLoop fuel s tb).packedBoxes.length +
      (Packer.packLoop fuel s tb).boxes.countP (fun b => !b.needRemove) =
    s.packedBoxes.length + s.boxes.countP (fun b => !b.needRemove) := by
  refine packLoop_inv (fun s2 => s2.packedBoxes.length +
    s2.boxes.countP (fun b => !b.needRemove) =
    s.packedBoxes.length + s.boxes.countP (fun b => !b.needRemove)) ?_ fuel s tb rfl
  intro s2 bb i hsel hP
  obtain ⟨hlt, hflag, _⟩ := hsel
  have hP2 : s2.packedBoxes.length + s2.boxes.countP (fun b => !b.needRemove) =
      s.packedBoxes.length + s.boxes.countP (fun b => !b.needRemove) := hP
  have hstep := packStep_count s2 bb i hlt hflag
  show (s2.packStep bb i).packedBoxes.length +
      (s2.packStep bb i).boxes.countP (fun b => !b.needRemove) = _
  rw [packStep_packedBoxes, List.length_append, List.length_singleton]
  omega

theorem packPrepared_packedBoxes (s : Packer) :
    s.packPrepared.packedBoxes =
      (Packer.packLoop (s.boxes.length + 1) s Box.mkDefault).packedBoxes := rfl

theorem addBoxes_flags (W H : Int) (l : List (Int × Int × Int)) :
    ∀ b ∈ (Packer.addBoxes (Packer.init W H) l).boxes, b.needRemove = false := by
  intro b hb
  rw [addBoxes_boxes l (Packer.init W H)] at hb
  rcases List.mem_append.1 hb with hb1 | hb2
  · simp [Packer.init] at hb1
  · obtain ⟨p, _, rfl⟩ := List.mem_map.1 hb2
    rfl

/-! ## Claim C10: every added rectangle lands in exactly one collection -/

/-- Claim C10: after the first pack() following preparation, the placed,
unplaced and rejected collections account for every added rectangle:
their sizes sum to the number of addBox calls. -/
theorem c10_partition (W H : Int) (l : List (Int × Int × Int)) :
    ((Packer.addBoxes (Packer.init W H) l).pack).packedBoxes.length +
    ((Packer.addBoxes (Packer.init W H) l).pack).notPlacedBoxes.length +
    ((Packer.addBoxes (Packer.init W H) l).pack).badBoxes.length = l.length := by
  have hprep : (Packer.addBoxes (Packer.init W H) l).isPrepared = false :=
    addBoxes_isPrepared l (Packer.init W H) rfl
  have hpack : (Packer.addBoxes (Packer.init W H) l).pack =
      (Packer.addBoxes (Packer.init W H) l).prepare.packPrepared := by
    rw [Packer.pack, hprep]
    simp
  set s0 := Packer.addBoxes (Packer.init W H) l with hs0
  set sp := s0.prepare with hsp
  set s1 := Packer.packLoop (sp.boxes.length + 1) sp Box.mkDefault with hs1
  have hflags : ∀ b ∈ sp.boxes, b.needRemove = false := by
    intro b hb
    rw [hsp, (prepare_fields s0).2.2.2.2.2.2.2.1] at hb
    have hb2 := (sortBoxes_perm _).mem_iff.1 hb
    exact addBoxes_flags W H l b (List.mem_filter.1 hb2).1
  have hcount0 : sp.boxes.countP (fun b => !b.needRemove) = sp.boxes.length :=
    List.countP_eq_length.2 (fun b hb => by simp [hflags b hb])
  have hcount := packLoop_count (sp.boxes.length + 1) sp Box.mkDefault
  rw [← hs1, (prepare_fields s0).2.2.1, hcount0] at hcount
  have hnp : (sp.packPrepared).notPlacedBoxes.length =
      s1.boxes.countP (fun b => !b.needRemove) := by
    rw [packPrepared_notPlaced, (prepare_fields s0).2.2.2.2.1, ← hs1, List.nil_append]
    exact (List.countP_eq_length_filter _ _).symm
  have hbad : (sp.packPrepared).badBoxes = s0.boxes.filter s0.isBadBox := by
    rw [packPrepared_badBoxes, hsp, (prepare_fields s0).2.2.2.2.2.2.2.2]
  have hgoodlen : sp.boxes.length = (s0.boxes.filter (fun b => !s0.isBadBox b)).length := by
    rw [hsp, (prepare_fields s0).2.2.2.2.2.2.2.1]
    exact (sortBoxes_perm _).length_eq
  have hsplit : s0.boxes.length = (s0.boxes.filter s0.isBadBox).length +
      (s0.boxes.filter (fun b => !s0.isBadBox b)).length :=
    List.length_eq_length_filter_add s0.isBadBox
  have hlen0 : s0.boxes.length = l.length := by
    rw [hs0, addBoxes_boxes l (Packer.init W H)]
    simp [Packer.init]
  rw [hpack, packPrepared_packedBoxes, ← hs1, hnp, hbad]
  simp only [List.length_nil] at hcount
  omega

/-! ## Claim C7: what pack() guarantees about the unplaced collection -/

/-- Claim C7, counterexample: with container 10x10 and one 5x5 box, after
two pack() calls (the claim quantifies over every pack() return) the 5x5
box sits in the unplaced collection even though the remaining free region
(0,5)-(10,10) accommodates it as stored, so the claim that no free region
could accommodate an unplaced box is false on the code. -/
theorem c7_counterexample :
    Box.createFromSize 5 5 1 0 ∈
      (((Packer.init 10 10).addBox 5 5 1).pack.pack).notPlacedBoxes ∧
    Box.createFromCoord 0 5 10 10 0 0 ∈
      (((Packer.init 10 10).addBox 5 5 1).pack.pack).freeBoxes ∧
    (Box.createFromCoord 0 5 10 10 0 0).width ≥ (Box.createFromSize 5 5 1 0).width ∧
    (Box.createFromCoord 0 5 10 10 0 0).height ≥ (Box.createFromSize 5 5 1 0).height := by
  refine ⟨by decide, by decide, by decide, by decide⟩

theorem calculateScore_congr (s s2 : Packer)
    (hpacked : s.packedBoxes = s2.packedBoxes)
    (hcw : s.containerWidth = s2.containerWidth)
    (hch : s.containerHeight = s2.containerHeight)
    (left top right bottom : Int) :
    s.calculateScore left top right bottom = s2.calculateScore left top right bottom := by
  simp only [Packer.calculateScore, hpacked, hcw, hch]

theorem fbpCand1_congr (s s2 : Packer)
    (hpacked : s.packedBoxes = s2.packedBoxes)
    (hcw : s.containerWidth = s2.containerWidth)
    (hch : s.containerHeight = s2.containerHeight)
    (box f : Box) (bs : Int) (t : Box) :
    Packer.fbpCand1 s box f bs t = Packer.fbpCand1 s2 box f bs t := by
  simp only [Packer.fbpCand1, calculateScore_congr s s2 hpacked hcw hch]

theorem fbpCand2_congr (s s2 : Packer)
    (hpacked : s.packedBoxes = s2.packedBoxes)
    (hcw : s.containerWidth = s2.containerWidth)
    (hch : s.containerHeight = s2.containerHeight)
    (box f : Box) (p : Int × Box) :
    Packer.fbpCand2 s box f p = Packer.fbpCand2 s2 box f p := by
  simp only [Packer.fbpCand2, calculateScore_congr s s2 hpacked hcw hch]

theorem findBoxPositionGo_congr (s s2 : Packer)
    (hpacked : s.packedBoxes = s2.packedBoxes)
    (hcw : s.containerWidth = s2.containerWidth)
    (hch : s.containerHeight = s2.containerHeight) (box : Box) :
    ∀ l bs t, Packer.findBoxPositionGo s box l bs t =
      Packer.findBoxPositionGo s2 box l bs t := by
  intro l
  induction l with
  | nil => intro bs t; rfl
  | cons f rest ih =>
    intro bs t
    rw [Packer.findBoxPositionGo, Packer.findBoxPositionGo]
    rw [fbpCand1_congr s s2 hpacked hcw hch box f bs t,
      fbpCand2_congr s s2 hpacked hcw hch box f]
    exact ih _ _

theorem findBoxPosition_congr (s s2 : Packer)
    (hfree : s.freeBoxes = s2.freeBoxes)
    (hpacked : s.packedBoxes = s2.packedBoxes)
    (hcw : s.containerWidth = s2.containerWidth)
    (hch : s.containerHeight = s2.containerHeight) (box tb : Box) :
    s.findBoxPosition box tb = s2.findBoxPosition box tb := by
  unfold Packer.findBoxPosition
  rw [hfree, findBoxPositionGo_congr s s2 hpacked hcw hch box]

/-- At exit of the pack loop either all pending boxes were consumed (the
lengths agree) or the last selection scan found no strictly positive mark
for any unconsumed pending box. -/
theorem packLoop_exit (fuel : Nat) :
    ∀ (s : Packer) (tb : Box), s.boxes.countP (fun b => !b.needRemove) < fuel →
      (Packer.packLoop fuel s tb).boxes.length =
          (Packer.packLoop fuel s tb).packedBoxes.length ∨
      (∀ b ∈ (Packer.packLoop fuel s tb).boxes, b.needRemove = false →
        ∀ tb2, ((Packer.packLoop fuel s tb).findBoxPosition b tb2).mark ≤ 0) := by
  induction fuel with
  | zero => intro s tb hc; omega
  | succ n ih =>
    intro s tb hc
    rw [Packer.packLoop]
    split_ifs with hlen
    · exact Or.inl hlen
    · rcases hsel : (s.packSelect tb).2.1 with _ | ⟨bb, i⟩
      · simp only [hsel]
        exact Or.inr (packSelect_none s tb hsel)
      · simp only [hsel]
        have hselected := packSelect_some s tb bb i hsel
        obtain ⟨hlt, hflag, _⟩ := hselected
        have hstep := packStep_count s bb i hlt hflag
        refine ih (s.packStep bb i) ((s.packSelect tb).2.2) ?_
        omega

/-- Claim C7, amended: after a pack() call that ran preparation (the first
pack after construction and addBox calls), every rectangle in the unplaced
collection admits no placement with a strictly positive score: its
findBoxPosition mark against the final free regions and placed boxes is at
most 0.  (A fitting free region may still exist when every fitting
placement scores exactly 0, and a repeated pack() call can report even
placed boxes as unplaced, so the stronger no-fit reading is false.) -/
theorem c7_amended (W H : Int) (l : List (Int × Int × Int)) :
    ∀ b ∈ ((Packer.addBoxes (Packer.init W H) l).pack).notPlacedBoxes,
      ∀ tb, (((Packer.addBoxes (Packer.init W H) l).pack).findBoxPosition b tb).mark ≤ 0 := by
  have hprep : (Packer.addBoxes (Packer.init W H) l).isPrepared = false :=
    addBoxes_isPrepared l (Packer.init W H) rfl
  have hpack : (Packer.addBoxes (Packer.init W H) l).pack =
      (Packer.addBoxes (Packer.init W H) l).prepare.packPrepared := by
    rw [Packer.pack, hprep]
    simp
  set s0 := Packer.addBoxes (Packer.init W H) l with hs0
  set sp := s0.prepare with hsp
  set s1 := Packer.packLoop (sp.boxes.length + 1) sp Box.mkDefault with hs1
  have hfuel : sp.boxes.countP (fun b => !b.needRemove) < sp.boxes.length + 1 := by
    have := List.countP_le_length (fun b => !b.needRemove) (l := sp.boxes)
    omega
  have hexit := packLoop_exit (sp.boxes.length + 1) sp Box.mkDefault hfuel
  rw [← hs1] at hexit
  intro b hb tb
  rw [hpack] at hb ⊢
  have hcongr : ∀ b2 tb2, (sp.packPrepared).findBoxPosition b2 tb2 =
      s1.findBoxPosition b2 tb2 := by
    intro b2 tb2
    exact findBoxPosition_congr (sp.packPrepared) s1 rfl rfl rfl rfl b2 tb2
  rw [hcongr b tb]
  rw [packPrepared_notPlaced, ← hs1, (prepare_fields s0).2.2.2.2.1, List.nil_append] at hb
  have hb2 := List.mem_filter.1 hb
  have hbflag : b.needRemove = false := by simpa using hb2.2
  rcases hexit with heq | hmarks
  · have hcount := packLoop_count (sp.boxes.length + 1) sp Box.mkDefault
    rw [← hs1] at hcount
    have hflags : ∀ x ∈ sp.boxes, x.needRemove = false := by
      intro x hx
      rw [hsp, (prepare_fields s0).2.2.2.2.2.2.2.1] at hx
      have hx2 := (sortBoxes_perm _).mem_iff.1 hx
      exact addBoxes_flags W H l x (List.mem_filter.1 hx2).1
    have hcount0 : sp.boxes.countP (fun x => !x.needRemove) = sp.boxes.length :=
      List.countP_eq_length.2 (fun x hx => by simp [hflags x hx])
    have hlen1 : s1.boxes.length = sp.boxes.length :=
      packLoop_boxes_length (sp.boxes.length + 1) sp Box.mkDefault
    rw [(prepare_fields s0).2.2.1, hcount0] at hcount
    have hzero : s1.boxes.countP (fun x => !x.needRemove) = 0 := by
      simp only [List.length_nil] at hcount
      omega
    have hmem : b ∈ s1.boxes.filter (fun x => !x.needRemove) := hb
    have hfl0 : (s1.boxes.filter (fun x => !x.needRemove)).length = 0 := by
      rw [← List.countP_eq_length_filter]
      exact hzero
    rw [List.length_eq_zero.1 hfl0] at hmem
    simp at hmem
  · exact hmarks b hb2.1 hbflag tb

/-- Witness for c7_amended: a 6x8 rectangle in a 10x4 container is valid
(it does not exceed both container dimensions in either orientation) but
fits no free region, and its best mark is at most 0. -/
theorem c7_amended_witness :
    Box.createFromSize 6 8 1 0 ∈
      ((Packer.addBoxes (Packer.init 10 4) [(6, 8, 1)]).pack).notPlacedBoxes ∧
    (((Packer.addBoxes (Packer.init 10 4) [(6, 8, 1)]).pack).findBoxPosition
      (Box.createFromSize 6 8 1 0) Box.mkDefault).mark ≤ 0 :=
  ⟨by decide, c7_amended 10 4 [(6, 8, 1)] (Box.createFromSize 6 8 1 0) (by decide)
    Box.mkDefault⟩

/-! ## Claim C2: splitting a free region around a placed rectangle -/

/-- The split semantics claimed by C2: at most four strips; every strip has
positive area, lies within the original region and its interior avoids the
placed rectangle's interior; together the strips cover every interior
point of the original region that is outside the placed rectangle; and
after addPackedBox no surviving free region overlaps the placed
rectangle (the overlapping originals are discarded). -/
def SplitCoversExactly (f b : Box) : Prop :=
  (Packer.splitFreeBox f b).length ≤ 4 ∧
  (∀ g ∈ Packer.splitFreeBox f b, 0 < g.width ∧ 0 < g.height ∧ ClosedWithin g f ∧
    ∀ x y : Int, InOpen g x y → ¬ InOpen b x y) ∧
  (∀ x y : Int, InOpen f x y → ¬ InOpen b x y →
    ∃ g ∈ Packer.splitFreeBox f b, InClosed g x y) ∧
  (∀ s : Packer, ∀ g ∈ (s.addPackedBox b).freeBoxes, Box.isSeparated g b = false)

/-- Claim C2: when a placement is committed, each free region overlapping
the placed rectangle is replaced by up to four positive-area residual
strips lying within it, the strips cover exactly the part of the region
not covered by the placed rectangle, and no surviving free region
overlaps the placed rectangle. -/
theorem c2_split_semantics (f b : Box) (hcoh : Coherent f) (hw : 0 < f.width)
    (hh : 0 < f.height) (hsep : Box.isSeparated f b = true) :
    SplitCoversExactly f b := by
  obtain ⟨hc1, hc2⟩ := hcoh
  rw [isSeparated_iff] at hsep
  obtain ⟨hs1, hs2, hs3, hs4⟩ := hsep
  refine ⟨splitFreeBox_length_le f b, ?_, ?_, ?_⟩
  · intro g hg
    rcases (splitFreeBox_mem_iff f b g).1 hg with
      ⟨hc, rfl⟩ | ⟨hc, rfl⟩ | ⟨hc, rfl⟩ | ⟨hc, rfl⟩ <;>
      refine ⟨by simp only [Box.createFromCoord]; omega, by simp only [Box.createFromCoord]; omega,
        ⟨by simp only [Box.createFromCoord]; omega, by simp only [Box.createFromCoord]; omega,
         by simp only [Box.createFromCoord]; omega, by simp only [Box.createFromCoord]; omega⟩,
        ?_⟩ <;>
      (intro x y hxy hb2
       simp only [InOpen, Box.createFromCoord] at hxy hb2
       omega)
  · intro x y hf hnb
    simp only [InOpen] at hf hnb
    have hcase : y ≤ b.top ∨ b.bottom ≤ y ∨ x ≤ b.left ∨ b.right ≤ x := by
      by_contra hc
      push_neg at hc
      exact hnb ⟨by omega, by omega, by omega, by omega⟩
    rcases hcase with hcy | hcy | hcx | hcx
    · refine ⟨Box.createFromCoord f.left f.top f.right b.top 0 0,
        (splitFreeBox_mem_iff f b _).2 (Or.inl ⟨⟨by omega, by omega⟩, rfl⟩), ?_⟩
      simp only [InClosed, Box.createFromCoord]
      omega
    · refine ⟨Box.createFromCoord f.left b.bottom f.right f.bottom 0 0,
        (splitFreeBox_mem_iff f b _).2 (Or.inr (Or.inl ⟨by omega, rfl⟩)), ?_⟩
      simp only [InClosed, Box.createFromCoord]
      omega
    · refine ⟨Box.createFromCoord f.left f.top b.left f.bottom 0 0,
        (splitFreeBox_mem_iff f b _).2 (Or.inr (Or.inr (Or.inl ⟨⟨by omega, by omega⟩, rfl⟩))), ?_⟩
      simp only [InClosed, Box.createFromCoord]
      omega
    · refine ⟨Box.createFromCoord b.right f.top f.right f.bottom 0 0,
        (splitFreeBox_mem_iff f b _).2 (Or.inr (Or.inr (Or.inr ⟨by omega, rfl⟩))), ?_⟩
      simp only [InClosed, Box.createFromCoord]
      omega
  · intro s g hg
    exact (addPackedBox_free_mem s b g hg).2.1

/-- Witness for c2_split_semantics at the free region (0,0)-(10,10) and the
placed rectangle (2,2)-(5,5). -/
theorem c2_witness :
    (Coherent (Box.createFromCoord 0 0 10 10 0 0) ∧
      0 < (Box.createFromCoord 0 0 10 10 0 0).width ∧
      0 < (Box.createFromCoord 0 0 10 10 0 0).height ∧
      Box.isSeparated (Box.createFromCoord 0 0 10 10 0 0)
        (Box.createFromCoord 2 2 5 5 0 0) = true) ∧
    SplitCoversExactly (Box.createFromCoord 0 0 10 10 0 0)
      (Box.createFromCoord 2 2 5 5 0 0) :=
  ⟨⟨⟨rfl, rfl⟩, by decide, by decide, by decide⟩,
    c2_split_semantics _ _ ⟨rfl, rfl⟩ (by decide) (by decide) (by decide)⟩

/-! ## Claim C3: range of the fullness accessor -/

/-- Two boxes equal in every field except possibly the transient mark. -/
def MarkEq (a b : Box) : Prop :=
  a.width = b.width ∧ a.height = b.height ∧ a.left = b.left ∧ a.top = b.top ∧
  a.right = b.right ∧ a.bottom = b.bottom ∧ a.id = b.id ∧ a.needRemove = b.needRemove

theorem markEq_refl (a : Box) : MarkEq a a := ⟨rfl, rfl, rfl, rfl, rfl, rfl, rfl, rfl⟩

theorem markEq_trans {a b c : Box} (h1 : MarkEq a b) (h2 : MarkEq b c) : MarkEq a c := by
  obtain ⟨e1, e2, e3, e4, e5, e6, e7, e8⟩ := h1
  obtain ⟨f1, f2, f3, f4, f5, f6, f7, f8⟩ := h2
  exact ⟨e1.trans f1, e2.trans f2, e3.trans f3, e4.trans f4,
    e5.trans f5, e6.trans f6, e7.trans f7, e8.trans f8⟩

theorem markEq_mark_set (b : Box) (m : Int) : MarkEq { b with mark := m } b :=
  ⟨rfl, rfl, rfl, rfl, rfl, rfl, rfl, rfl⟩

theorem markEq_coherent {g a : Box} (h : MarkEq g a) (hc : Coherent a) : Coherent g := by
  obtain ⟨e1, e2, e3, e4, e5, e6, _, _⟩ := h
  obtain ⟨c1, c2⟩ := hc
  exact ⟨by omega, by omega⟩

theorem markEq_square {g a : Box} (h : MarkEq g a) : g.square = a.square := by
  obtain ⟨e1, e2, _⟩ := h
  simp [Box.square, e1, e2]

/-- Every element of the initial marking pass output is a free box of the
state with only its mark rewritten. -/
theorem fullnessMarkInit_mem (s : Packer) (g : Box) (hg : g ∈ s.fullnessMarkInit) :
    ∃ a ∈ s.freeBoxes, MarkEq g a := by
  simp only [Packer.fullnessMarkInit, List.mem_map] at hg
  obtain ⟨a, ha, rfl⟩ := hg
  refine ⟨a, ha, ?_⟩
  split_ifs <;> exact markEq_mark_set a _

/-- Provenance through the double mark update of the touching pass body. -/
theorem fullnessMarkJ_set_mem (arr : List Box) (i j : Nat) (m : Int)
    (hj : j < arr.length) (x : Box)
    (hx : x ∈ (arr.set j { arr.getD j Box.mkDefault with mark := m }).set i
      { arr.getD i Box.mkDefault with mark := m }) :
    ∃ a ∈ arr, MarkEq x a := by
  have hgd : ∀ k, k < arr.length → arr.getD k Box.mkDefault ∈ arr := by
    intro k hk
    rw [List.getD_eq_getElem arr Box.mkDefault hk]
    exact List.getElem_mem hk
  have hinner : ∀ y, y ∈ arr.set j { arr.getD j Box.mkDefault with mark := m } →
      ∃ a ∈ arr, MarkEq y a := by
    intro y hy
    rcases List.mem_or_eq_of_mem_set hy with hin | rfl
    · exact ⟨y, hin, markEq_refl y⟩
    · exact ⟨arr.getD j Box.mkDefault, hgd j hj, markEq_mark_set _ m⟩
  by_cases hi : i < arr.length
  · rcases List.mem_or_eq_of_mem_set hx with hin | rfl
    · exact hinner x hin
    · exact ⟨arr.getD i Box.mkDefault, hgd i hi, markEq_mark_set _ m⟩
  · rw [List.set_eq_of_length_le (by rw [List.length_set]; omega)] at hx
    exact hinner x hx

/-- The inner touching loop only rewrites marks: every element of its
output array comes from the input array up to a mark change. -/
theorem fullnessMarkJ_mem :
    ∀ fuel arr nextMark i j, ∀ g ∈ (Packer.fullnessMarkJ fuel arr nextMark i j).1,
      ∃ a ∈ arr, MarkEq g a := by
  intro fuel
  induction fuel with
  | zero =>
    intro arr n i j g hg
    exact ⟨g, hg, markEq_refl g⟩
  | succ nf ih =>
    intro arr n i j g hg
    simp only [Packer.fullnessMarkJ] at hg
    by_cases hj : j < arr.length
    · rw [if_pos hj] at hg
      split_ifs at hg with ht hm
      · obtain ⟨y, hy, hgy⟩ := ih _ _ i (j+1) g hg
        obtain ⟨a, ha, hya⟩ := fullnessMarkJ_set_mem arr i j _ hj y hy
        exact ⟨a, ha, markEq_trans hgy hya⟩
      · obtain ⟨y, hy, hgy⟩ := ih _ _ i (j+1) g hg
        obtain ⟨a, ha, hya⟩ := fullnessMarkJ_set_mem arr i j _ hj y hy
        exact ⟨a, ha, markEq_trans hgy hya⟩
      · exact ih arr n i (j+1) g hg
    · rw [if_neg hj] at hg
      exact ⟨g, hg, markEq_refl g⟩

/-- The outer touching loop only rewrites marks. -/
theorem fullnessMarkI_mem :
    ∀ fuel arr nextMark i, ∀ g ∈ Packer.fullnessMarkI fuel arr nextMark i,
      ∃ a ∈ arr, MarkEq g a := by
  intro fuel
  induction fuel with
  | zero =>
    intro arr n i g hg
    exact ⟨g, hg, markEq_refl g⟩
  | succ nf ih =>
    intro arr n i g hg
    simp only [Packer.fullnessMarkI] at hg
    by_cases hi : i + 1 < arr.length
    · rw [if_pos hi] at hg
      obtain ⟨y, hy, hgy⟩ := ih _ _ (i+1) g hg
      obtain ⟨a, ha, hya⟩ := fullnessMarkJ_mem arr.length arr n i (i+1) y hy
      exact ⟨a, ha, markEq_trans hgy hya⟩
    · rw [if_neg hi] at hg
      exact ⟨g, hg, markEq_refl g⟩

/-- On a one-element array the outer touching loop does nothing. -/
theorem fullnessMarkI_singleton (fuel : Nat) (x : Box) (nextMark : Int) (i : Nat) :
    Packer.fullnessMarkI fuel [x] nextMark i = [x] := by
  cases fuel with
  | zero => rfl
  | succ m =>
    have hcond : ¬ (i + 1 < ([x] : List Box).length) := by simp
    rw [Packer.fullnessMarkI, if_neg hcond]

/-- The inner-area accumulator never decreases when all squares are
non-negative. -/
theorem innerFold_le (l : List Box) :
    ∀ acc : Int, (∀ b ∈ l, 0 ≤ b.square) →
      acc ≤ l.foldl
        (fun accum box =>
          if box.mark ≠ BOTTOM_RIGHT_MARK then accum + box.square else accum) acc := by
  induction l with
  | nil =>
    intro acc _
    simp
  | cons b rest ih =>
    intro acc hl
    rw [List.foldl_cons]
    have hb := hl b (List.mem_cons_self b rest)
    have h1 : acc ≤ (if b.mark ≠ BOTTOM_RIGHT_MARK then acc + b.square else acc) := by
      split_ifs <;> omega
    exact le_trans h1 (ih _ (fun x hx => hl x (List.mem_cons_of_mem b hx)))

/-- The packed-area accumulator never decreases when all squares are
non-negative. -/
theorem packedFold_le (l : List Box) :
    ∀ acc : Int, (∀ b ∈ l, 0 ≤ b.square) →
      acc ≤ l.foldl (fun accum box => accum + box.square) acc := by
  induction l with
  | nil =>
    intro acc _
    simp
  | cons b rest ih =>
    intro acc hl
    rw [List.foldl_cons]
    have hb := hl b (List.mem_cons_self b rest)
    have h2 := ih (acc + b.square) (fun x hx => hl x (List.mem_cons_of_mem b hx))
    omega

/-- The ratio expression of calculateFullness is none or lands in [0, 1]
whenever both area sums are non-negative. -/
theorem ratio_ok (bsq inner : Int) (hb : 0 ≤ bsq) (hi : 0 ≤ inner) :
    (if bsq + inner = 0 then (none : Option ℚ)
     else some (1 - (inner : ℚ) / ((bsq : ℚ) + (inner : ℚ)))) = none ∨
    ∃ q : ℚ, (if bsq + inner = 0 then (none : Option ℚ)
     else some (1 - (inner : ℚ) / ((bsq : ℚ) + (inner : ℚ)))) = some q ∧ 0 ≤ q ∧ q ≤ 1 := by
  split_ifs with hz
  · exact Or.inl rfl
  · refine Or.inr ⟨_, rfl, ?_, ?_⟩
    · have htot : (0 : ℚ) < (bsq : ℚ) + (inner : ℚ) := by
        have hzi : (0 : Int) < bsq + inner := by omega
        exact_mod_cast hzi
      have h1 : (inner : ℚ) / ((bsq : ℚ) + (inner : ℚ)) ≤ 1 := by
        rw [div_le_one htot]
        have hle : (inner : Int) ≤ bsq + inner := by omega
        exact_mod_cast hle
      linarith
    · have htot : (0 : ℚ) ≤ (bsq : ℚ) + (inner : ℚ) := by
        have hzi : (0 : Int) ≤ bsq + inner := by omega
        exact_mod_cast hzi
      have h2 : 0 ≤ (inner : ℚ) / ((bsq : ℚ) + (inner : ℚ)) :=
        div_nonneg (by exact_mod_cast hi) htot
      linarith

/-- The invariant of reachable packer states used to bound the fullness
ratio: free boxes are coherent and — except in the just-prepared state
holding the single whole-container free box — have positive dimensions;
packed boxes have positive dimensions; after preparation the pending
boxes do too; and the cached fullness is the -1 sentinel, the non-finite
marker, or a ratio in [0, 1]. -/
structure FullInv (s : Packer) : Prop where
  freeCoh : ∀ g ∈ s.freeBoxes, Coherent g
  freeOK : (∀ g ∈ s.freeBoxes, 0 < g.width ∧ 0 < g.height) ∨
    (s.packedBoxes = [] ∧ ∃ g, s.freeBoxes = [g])
  packedPos : ∀ p ∈ s.packedBoxes, 0 < p.width ∧ 0 < p.height
  boxesPos : s.isPrepared = true → ∀ b ∈ s.boxes, 0 < b.width ∧ 0 < b.height
  cacheOk : s.fullnessCache = some (-1) ∨ s.fullnessCache = none ∨
    ∃ q : ℚ, s.fullnessCache = some q ∧ 0 ≤ q ∧ q ≤ 1

/-- The engine states reachable through the public interface of the Packer
class: the constructor, resizeContainer, clear, addBox, prepare, pack and
the fullness getter (whose read may write the cache and the free-box
marks, so its state component is included). -/
inductive Reachable : Packer → Prop where
  | init (w h : Int) : Reachable (Packer.init w h)
  | resizeContainer (s : Packer) (w h : Int) : Reachable s → Reachable (s.resizeContainer w h)
  | clear (s : Packer) : Reachable s → Reachable s.clear
  | addBox (s : Packer) (w h id : Int) : Reachable s → Reachable (s.addBox w h id)
  | prepare (s : Packer) : Reachable s → Reachable s.prepare
  | pack (s : Packer) : Reachable s → Reachable s.pack
  | fullness (s : Packer) : Reachable s → Reachable (s.fullness).1

theorem fullInv_init (w h : Int) : FullInv (Packer.init w h) := by
  refine ⟨?_, Or.inl ?_, ?_, ?_, Or.inl rfl⟩
  · intro g hg
    simp [Packer.init] at hg
  · intro g hg
    simp [Packer.init] at hg
  · intro p hp
    simp [Packer.init] at hp
  · intro _ b hb
    simp [Packer.init] at hb

theorem fullInv_resizeContainer (s : Packer) (w h : Int) (hInv : FullInv s) :
    FullInv (s.resizeContainer w h) :=
  ⟨hInv.freeCoh, hInv.freeOK, hInv.packedPos, hInv.boxesPos, hInv.cacheOk⟩

theorem fullInv_clear (s : Packer) : FullInv s.clear := by
  refine ⟨?_, Or.inl ?_, ?_, ?_, Or.inl rfl⟩
  · intro g hg
    simp [Packer.clear, Packer.reset] at hg
  · intro g hg
    simp [Packer.clear, Packer.reset] at hg
  · intro p hp
    simp [Packer.clear, Packer.reset] at hp
  · intro hp b hb
    simp [Packer.clear, Packer.reset] at hp

theorem fullInv_addBox (s : Packer) (w h id : Int) (hInv : FullInv s) :
    FullInv (s.addBox w h id) := by
  refine ⟨hInv.freeCoh, hInv.freeOK, hInv.packedPos, ?_, hInv.cacheOk⟩
  intro hp b hb
  simp [Packer.addBox] at hp

theorem fullInv_prepare (s : Packer) : FullInv s.prepare := by
  refine ⟨?_, Or.inr ⟨(prepare_fields s).2.2.1, ⟨_, (prepare_fields s).2.2.2.1⟩⟩, ?_, ?_,
    Or.inl (prepare_fields s).2.2.2.2.2.2.1⟩
  · intro g hg
    rw [(prepare_fields s).2.2.2.1, List.mem_singleton] at hg
    rw [hg]
    exact ⟨rfl, rfl⟩
  · intro p hp
    rw [(prepare_fields s).2.2.1] at hp
    simp at hp
  · intro _ b hb
    rw [(prepare_fields s).2.2.2.2.2.2.2.1] at hb
    have hb2 := (sortBoxes_perm _).mem_iff.1 hb
    have hb3 := List.mem_filter.1 hb2
    exact isBadBox_false_pos s b (by simpa using hb3.2)

/-- A residual strip of a coherent, positive-dimension free box has
positive dimensions. -/
theorem strip_pos (f b g : Box) (hcoh : Coherent f) (hw : 0 < f.width)
    (hh : 0 < f.height) (hg : g ∈ Packer.splitFreeBox f b) :
    0 < g.width ∧ 0 < g.height := by
  obtain ⟨c1, c2⟩ := hcoh
  rcases (splitFreeBox_mem_iff f b g).1 hg with ⟨hc, rfl⟩ | ⟨hc, rfl⟩ | ⟨hc, rfl⟩ | ⟨hc, rfl⟩ <;>
    exact ⟨by simp only [Box.createFromCoord]; omega, by simp only [Box.createFromCoord]; omega⟩

/-- A positive coherent rectangle lying within a free box overlaps it. -/
theorem isSeparated_true_of_within {f b : Box} (hw : ClosedWithin b f)
    (hcoh : Coherent b) (hbW : 0 < b.width) (hbH : 0 < b.height) :
    Box.isSeparated f b = true := by
  rw [isSeparated_iff]
  obtain ⟨h1, h2, h3, h4⟩ := hw
  obtain ⟨c1, c2⟩ := hcoh
  exact ⟨by omega, by omega, by omega, by omega⟩

theorem fullInv_packStep (s : Packer) (bb : Box) (i : Nat) (hsel : Selected s bb i)
    (h : FullInv s) (hp : s.isPrepared = true) : FullInv (s.packStep bb i) := by
  obtain ⟨f0, hf0, hbbCoh, hbbW, hbbH, hbbWithin, hbbFlag⟩ :=
    selected_box_facts s bb i hsel (h.boxesPos hp) h.freeCoh
  have hfree := addPackedBox_free_mem s bb
  have hfreePos : ∀ g ∈ (s.packStep bb i).freeBoxes, 0 < g.width ∧ 0 < g.height := by
    intro g hg
    rw [packStep_freeBoxes] at hg
    obtain ⟨_, hgbb, hprov⟩ := hfree g hg
    rcases h.freeOK with hall | ⟨hpk, g0, hfb⟩
    · rcases hprov with horig | ⟨f, hf, hsepf, hstrip⟩
      · exact hall g horig
      · exact strip_pos f bb g (h.freeCoh f hf) (hall f hf).1 (hall f hf).2 hstrip
    · have hsep0 : Box.isSeparated f0 bb = true :=
        isSeparated_true_of_within hbbWithin hbbCoh hbbW hbbH
      have hf0eq := hf0
      rw [hfb, List.mem_singleton] at hf0eq
      have hf0pos : 0 < f0.width ∧ 0 < f0.height := by
        obtain ⟨w1, w2, w3, w4⟩ := hbbWithin
        obtain ⟨c1, c2⟩ := hbbCoh
        obtain ⟨d1, d2⟩ := h.freeCoh f0 hf0
        exact ⟨by omega, by omega⟩
      rcases hprov with horig | ⟨f, hf, hsepf, hstrip⟩
      · rw [hfb, List.mem_singleton] at horig
        rw [horig, ← hf0eq, hsep0] at hgbb
        cases hgbb
      · rw [hfb, List.mem_singleton] at hf
        rw [hf, ← hf0eq] at hstrip
        exact strip_pos f0 bb g (h.freeCoh f0 hf0) hf0pos.1 hf0pos.2 hstrip
  refine ⟨?_, Or.inl hfreePos, ?_, ?_, ?_⟩
  · intro g hg
    rw [packStep_freeBoxes] at hg
    rcases (hfree g hg).2.2 with horig | ⟨f, hf, hsepf, hstrip⟩
    · exact h.freeCoh g horig
    · exact (strip_facts f bb g hsepf hstrip).1
  · intro p hpmem
    rw [packStep_packedBoxes] at hpmem
    rcases List.mem_append.1 hpmem with h1 | h2
    · exact h.packedPos p h1
    · rw [List.mem_singleton.1 h2]
      exact ⟨hbbW, hbbH⟩
  · intro _ b hb
    rw [packStep_boxes] at hb
    rcases List.mem_or_eq_of_mem_set hb with hb1 | rfl
    · exact h.boxesPos hp b hb1
    · obtain ⟨hlt, _, _⟩ := hsel
      have := h.boxesPos hp (s.boxes.getD i Box.mkDefault)
        (by rw [List.getD_eq_getElem s.boxes Box.mkDefault hlt]; exact List.getElem_mem hlt)
      exact this
  · rw [(packStep_frame s bb i).2.2.2.2.2]
    exact h.cacheOk

theorem fullInv_packLoop (fuel : Nat) (s : Packer) (tb : Box)
    (h : FullInv s) (hp : s.isPrepared = true) :
    FullInv (Packer.packLoop fuel s tb) ∧ (Packer.packLoop fuel s tb).isPrepared = true :=
  packLoop_inv (fun s2 => FullInv s2 ∧ s2.isPrepared = true)
    (fun s2 bb i hsel hP =>
      ⟨fullInv_packStep s2 bb i hsel hP.1 hP.2,
       by rw [(packStep_frame s2 bb i).2.2.2.2.1]; exact hP.2⟩)
    fuel s tb ⟨h, hp⟩

theorem fullInv_packPrepared (s : Packer) (h : FullInv s) (hp : s.isPrepared = true) :
    FullInv s.packPrepared := by
  obtain ⟨hloop, hlp⟩ := fullInv_packLoop (s.boxes.length + 1) s Box.mkDefault h hp
  set s1 := Packer.packLoop (s.boxes.length + 1) s Box.mkDefault with hs1
  refine ⟨hloop.freeCoh, hloop.freeOK, hloop.packedPos, ?_, hloop.cacheOk⟩
  intro _ b hb
  simp only [Packer.packPrepared, ← hs1, List.mem_map] at hb
  obtain ⟨b0, hb0, rfl⟩ := hb
  exact hloop.boxesPos hlp b0 hb0

theorem fullInv_pack (s : Packer) (h : FullInv s) : FullInv s.pack := by
  by_cases hp : s.isPrepared = true
  · rw [Packer.pack, if_pos hp]
    exact fullInv_packPrepared s h hp
  · rw [Packer.pack, if_neg hp]
    exact fullInv_packPrepared s.prepare (fullInv_prepare s) (prepare_fields s).2.2.2.2.2.1

/-- calculateFullness preserves the invariant and stores none or a ratio in
[0, 1] into the cache. -/
theorem calculateFullness_ok (s : Packer) (h : FullInv s) :
    FullInv s.calculateFullness ∧
      ((s.calculateFullness).fullnessCache = none ∨
        ∃ q : ℚ, (s.calculateFullness).fullnessCache = some q ∧ 0 ≤ q ∧ q ≤ 1) := by
  have hprov : ∀ g ∈ Packer.fullnessMarkI (s.fullnessMarkInit).length s.fullnessMarkInit 1 0,
      ∃ a ∈ s.freeBoxes, MarkEq g a := by
    intro g hg
    obtain ⟨y, hy, hgy⟩ := fullnessMarkI_mem (s.fullnessMarkInit).length s.fullnessMarkInit 1 0 g hg
    obtain ⟨a, ha, hya⟩ := fullnessMarkInit_mem s y hy
    exact ⟨a, ha, markEq_trans hgy hya⟩
  have hvalue : (s.calculateFullness).fullnessCache = none ∨
      ∃ q : ℚ, (s.calculateFullness).fullnessCache = some q ∧ 0 ≤ q ∧ q ≤ 1 := by
    rcases h.freeOK with hall | ⟨hpk, g0, hfb⟩
    · have hsq : ∀ g ∈ Packer.fullnessMarkI (s.fullnessMarkInit).length s.fullnessMarkInit 1 0,
          0 ≤ g.square := by
        intro g hg
        obtain ⟨a, ha, hga⟩ := hprov g hg
        rw [markEq_square hga]
        have := hall a ha
        have : 0 < a.square := mul_pos this.1 this.2
        omega
      have hinner : (0 : Int) ≤ (Packer.fullnessMarkI (s.fullnessMarkInit).length
          s.fullnessMarkInit 1 0).foldl
          (fun accum box =>
            if box.mark ≠ BOTTOM_RIGHT_MARK then accum + box.square else accum) 0 :=
        innerFold_le _ 0 hsq
      have hpsq : ∀ b ∈ s.packedBoxes, 0 ≤ b.square := by
        intro b hb
        have := h.packedPos b hb
        have : 0 < b.square := mul_pos this.1 this.2
        omega
      have hbsq : (0 : Int) ≤ s.packedBoxes.foldl (fun accum box => accum + box.square) 0 :=
        packedFold_le _ 0 hpsq
      exact ratio_ok _ _ hbsq hinner
    · have hfb1 : s.fullnessMarkInit =
          [if g0.right = s.containerWidth ∧ g0.bottom = s.containerHeight then
            { g0 with mark := BOTTOM_RIGHT_MARK } else { g0 with mark := 0 }] := by
        simp only [Packer.fullnessMarkInit, hfb, List.map_cons, List.map_nil]
      have hcache : (s.calculateFullness).fullnessCache =
          (if (s.packedBoxes.foldl (fun accum box => accum + box.square) 0) +
              ((Packer.fullnessMarkI (s.fullnessMarkInit).length s.fullnessMarkInit 1 0).foldl
                (fun accum box =>
                  if box.mark ≠ BOTTOM_RIGHT_MARK then accum + box.square else accum) 0) = 0
           then none
           else some (1 -
            (((Packer.fullnessMarkI (s.fullnessMarkInit).length s.fullnessMarkInit 1 0).foldl
                (fun accum box =>
                  if box.mark ≠ BOTTOM_RIGHT_MARK then accum + box.square else accum) 0 : Int) : ℚ) /
            (((s.packedBoxes.foldl (fun accum box => accum + box.square) 0 : Int) : ℚ) +
             ((Packer.fullnessMarkI (s.fullnessMarkInit).length s.fullnessMarkInit 1 0).foldl
                (fun accum box =>
                  if box.mark ≠ BOTTOM_RIGHT_MARK then accum + box.square else accum) 0 : Int)))) :=
        rfl
      rw [hfb1, fullnessMarkI_singleton _ _ 1 0, hpk] at hcache
      simp only [List.foldl_cons, List.foldl_nil] at hcache
      by_cases hbr : g0.right = s.containerWidth ∧ g0.bottom = s.containerHeight
      · rw [if_pos hbr] at hcache
        have hmark : ¬ (({ g0 with mark := BOTTOM_RIGHT_MARK } : Box).mark ≠ BOTTOM_RIGHT_MARK) := by
          simp
        rw [if_neg hmark] at hcache
        norm_num at hcache
        exact Or.inl hcache
      · rw [if_neg hbr] at hcache
        have hmark : (({ g0 with mark := 0 } : Box).mark ≠ BOTTOM_RIGHT_MARK) := by
          simp [BOTTOM_RIGHT_MARK]
        rw [if_pos hmark] at hcache
        simp only [zero_add, Int.cast_zero] at hcache
        by_cases hz : ({ g0 with mark := 0 } : Box).square = 0
        · rw [if_pos hz] at hcache
          exact Or.inl hcache
        · rw [if_neg hz] at hcache
          refine Or.inr ⟨_, hcache, ?_, ?_⟩
          · rw [div_self (Int.cast_ne_zero.mpr hz)]
            norm_num
          · rw [div_self (Int.cast_ne_zero.mpr hz)]
            norm_num
  refine ⟨⟨?_, ?_, h.packedPos, h.boxesPos, ?_⟩, hvalue⟩
  · intro g hg
    obtain ⟨a, ha, hga⟩ := hprov g hg
    exact markEq_coherent hga (h.freeCoh a ha)
  · rcases h.freeOK with hall | ⟨hpk, g0, hfb⟩
    · refine Or.inl ?_
      intro g hg
      obtain ⟨a, ha, hga⟩ := hprov g hg
      obtain ⟨e1, e2, _⟩ := hga
      rw [e1, e2]
      exact hall a ha
    · refine Or.inr ⟨hpk, ?_⟩
      have hfb1 : s.fullnessMarkInit =
          [if g0.right = s.containerWidth ∧ g0.bottom = s.containerHeight then
            { g0 with mark := BOTTOM_RIGHT_MARK } else { g0 with mark := 0 }] := by
        simp only [Packer.fullnessMarkInit, hfb, List.map_cons, List.map_nil]
      refine ⟨if g0.right = s.containerWidth ∧ g0.bottom = s.containerHeight then
          { g0 with mark := BOTTOM_RIGHT_MARK } else { g0 with mark := 0 }, ?_⟩
      show Packer.fullnessMarkI (s.fullnessMarkInit).length s.fullnessMarkInit 1 0 = _
      rw [hfb1]
      exact fullnessMarkI_singleton _ _ 1 0
  · rcases hvalue with h1 | ⟨q, hq, h0, h1q⟩
    · exact Or.inr (Or.inl h1)
    · exact Or.inr (Or.inr ⟨q, hq, h0, h1q⟩)

/-- Reading the fullness getter preserves the invariant and yields none or
a value in [0, 1]. -/
theorem fullInv_fullness (s : Packer) (h : FullInv s) :
    FullInv (s.fullness).1 ∧
      ((s.fullness).2 = none ∨ ∃ q : ℚ, (s.fullness).2 = some q ∧ 0 ≤ q ∧ q ≤ 1) := by
  by_cases hc : s.fullnessCache = some (-1)
  · rw [Packer.fullness, if_pos hc]
    exact calculateFullness_ok s h
  · rw [Packer.fullness, if_neg hc]
    refine ⟨h, ?_⟩
    rcases h.cacheOk with h1 | h1 | ⟨q, hq, h0, h1q⟩
    · exact absurd h1 hc
    · exact Or.inl h1
    · exact Or.inr ⟨q, hq, h0, h1q⟩

/-- Every state reachable through the public interface satisfies the
invariant. -/
theorem reachable_fullInv (s : Packer) (h : Reachable s) : FullInv s := by
  induction h with
  | init w h2 => exact fullInv_init w h2
  | resizeContainer s2 w h2 _ ih => exact fullInv_resizeContainer s2 w h2 ih
  | clear s2 _ _ => exact fullInv_clear s2
  | addBox s2 w h2 id2 _ ih => exact fullInv_addBox s2 w h2 id2 ih
  | prepare s2 _ _ => exact fullInv_prepare s2
  | pack s2 _ ih => exact fullInv_pack s2 ih
  | fullness s2 _ ih => exact (fullInv_fullness s2 ih).1

/-- Claim C3 fails on the code: on the freshly constructed engine — a
reachable state with nothing packed — reading the fullness accessor
evaluates 1 - 0 / (0 + 0), which is the non-finite NaN (modelled none),
not a number in [0, 1]; the source has no guard for the all-zero case. -/
theorem c3_counterexample :
    Reachable (Packer.init 100 100) ∧ ((Packer.init 100 100).fullness).2 = none :=
  ⟨Reachable.init 100 100, rfl⟩

/-- Claim C3, amended: for every reachable engine state, reading the
fullness accessor returns either the non-finite division result (none,
arising exactly from a zero denominator) or a rational in [0, 1]
inclusive; a finite result is never outside [0, 1]. -/
theorem c3_amended (s : Packer) (h : Reachable s) :
    (s.fullness).2 = none ∨ ∃ q : ℚ, (s.fullness).2 = some q ∧ 0 ≤ q ∧ q ≤ 1 :=
  (fullInv_fullness s (reachable_fullInv s h)).2

/-- Witness for c3_amended on the freshly constructed 4x4 engine. -/
theorem c3_amended_witness :
    Reachable (Packer.init 4 4) ∧
      (((Packer.init 4 4).fullness).2 = none ∨
        ∃ q : ℚ, ((Packer.init 4 4).fullness).2 = some q ∧ 0 ≤ q ∧ q ≤ 1) :=
  ⟨Reachable.init 4 4, c3_amended (Packer.init 4 4) (Reachable.init 4 4)⟩

end RectPack
